import Mathlib

/-
  Verification of the local-s3 core (signature verifier and object store)
  against its design document.

  Strings are modelled as lists of characters (`Str`), byte sequences as
  lists of naturals below 256 (`Bytes`).  The filesystem is modelled as an
  explicit finite map from component paths to file data plus a set of
  directories; every Go storage operation becomes a pure function from a
  filesystem state (and an explicit clock value) to a result and a new
  state.
-/

namespace LocalS3

abbrev Bytes := List Nat
abbrev Str := List Char

/-- UTF-8 encoding of one code point (what Go's `[]byte(string)` does per rune). -/
def utf8Char (c : Char) : Bytes :=
  let n := c.toNat
  if n < 128 then [n]
  else if n < 2048 then [192 + n / 64, 128 + n % 64]
  else if n < 65536 then [224 + n / 4096, 128 + (n / 64) % 64, 128 + n % 64]
  else [240 + n / 262144, 128 + (n / 4096) % 64, 128 + (n / 64) % 64, 128 + n % 64]

/-- UTF-8 encoding of a string, i.e. Go's `[]byte(s)`. -/
def strBytes (s : Str) : Bytes := (s.map utf8Char).flatten

/-- UTF-8 decoding (fuel-driven); inverse of `strBytes` on valid encodings. -/
def utf8DecodeAux : Nat → Bytes → Str
  | 0, _ => []
  | _ + 1, [] => []
  | f + 1, b :: rest =>
    if b < 128 then Char.ofNat b :: utf8DecodeAux f rest
    else if b < 224 then
      match rest with
      | b1 :: r => Char.ofNat ((b - 192) * 64 + (b1 - 128)) :: utf8DecodeAux f r
      | [] => []
    else if b < 240 then
      match rest with
      | b1 :: b2 :: r =>
          Char.ofNat ((b - 224) * 4096 + (b1 - 128) * 64 + (b2 - 128)) :: utf8DecodeAux f r
      | _ => []
    else
      match rest with
      | b1 :: b2 :: b3 :: r =>
          Char.ofNat ((b - 240) * 262144 + (b1 - 128) * 4096 + (b2 - 128) * 64 + (b3 - 128))
            :: utf8DecodeAux f r
      | _ => []

def utf8Decode (bs : Bytes) : Str := utf8DecodeAux bs.length bs

/-- Lowercase hex digit. -/
def hexDigitChar (n : Nat) : Char :=
  if n < 10 then Char.ofNat (48 + n) else Char.ofNat (87 + n)

/-- Two lowercase hex digits of a byte. -/
def hexByte (b : Nat) : Str := [hexDigitChar (b / 16), hexDigitChar (b % 16)]

/-- Go `hex.EncodeToString`: lowercase hex of a byte slice. -/
def hexEncode (bs : Bytes) : Str := (bs.map hexByte).flatten

/-- `%x` of a natural number: lowercase hex, no leading zeros ("0" for 0). -/
def natHexAux : Nat → Nat → Str
  | 0, _ => []
  | f + 1, n =>
    if n = 0 then [] else natHexAux f (n / 16) ++ [hexDigitChar (n % 16)]

def natHex (n : Nat) : Str :=
  if n = 0 then ['0'] else natHexAux (n + 1) n

/-! ## SHA-256 (FIPS 180-4), the function Go's `crypto/sha256` implements. -/

def add32 (a b : Nat) : Nat := (a + b) % 4294967296
def rotr32 (n x : Nat) : Nat := ((x >>> n) ||| (x <<< (32 - n))) % 4294967296
def shr32 (n x : Nat) : Nat := x >>> n

def bsig0 (x : Nat) : Nat := (rotr32 2 x) ^^^ (rotr32 13 x) ^^^ (rotr32 22 x)
def bsig1 (x : Nat) : Nat := (rotr32 6 x) ^^^ (rotr32 11 x) ^^^ (rotr32 25 x)
def ssig0 (x : Nat) : Nat := (rotr32 7 x) ^^^ (rotr32 18 x) ^^^ (shr32 3 x)
def ssig1 (x : Nat) : Nat := (rotr32 17 x) ^^^ (rotr32 19 x) ^^^ (shr32 10 x)

def chF (x y z : Nat) : Nat := (x &&& y) ^^^ ((x ^^^ 4294967295) &&& z)
def majF (x y z : Nat) : Nat := (x &&& y) ^^^ (x &&& z) ^^^ (y &&& z)

/-- The 64 FIPS 180-4 round constants (decimal). -/
def shaK : List Nat :=
  [1116352408, 1899447441, 3049323471, 3921009573, 961987163, 1508970993,
   2453635748, 2870763221, 3624381080, 310598401, 607225278, 1426881987,
   1925078388, 2162078206, 2614888103, 3248222580, 3835390401, 4022224774,
   264347078, 604807628, 770255983, 1249150122, 1555081692, 1996064986,
   2554220882, 2821834349, 2952996808, 3210313671, 3336571891, 3584528711,
   113926993, 338241895, 666307205, 773529912, 1294757372, 1396182291,
   1695183700, 1986661051, 2177026350, 2456956037, 2730485921, 2820302411,
   3259730800, 3345764771, 3516065817, 3600352804, 4094571909, 275423344,
   430227734, 506948616, 659060556, 883997877, 958139571, 1322822218,
   1537002063, 1747873779, 1955562222, 2024104815, 2227730452, 2361852424,
   2428436474, 2756734187, 3204031479, 3329325298]

structure Hash8 where
  a : Nat
  b : Nat
  c : Nat
  d : Nat
  e : Nat
  f : Nat
  g : Nat
  h : Nat
deriving DecidableEq

/-- The FIPS 180-4 initial hash value (decimal). -/
def shaH0 : Hash8 :=
  ⟨1779033703, 3144134277, 1013904242, 2773480762,
   1359893119, 2600822924, 528734635, 1541459225⟩

/-- Big-endian bytes of `n`, `w` bytes wide. -/
def beBytes : Nat → Nat → Bytes
  | 0, _ => []
  | w + 1, n => ((n >>> (8 * w)) &&& 255) :: beBytes w n

/-- SHA-256 padding: 0x80, zeros to 56 mod 64, then 8-byte big-endian bit length. -/
def shaPad (msg : Bytes) : Bytes :=
  msg ++ 128 :: List.replicate ((119 - msg.length % 64) % 64) 0 ++ beBytes 8 (8 * msg.length)

/-- Big-endian 32-bit words of a byte list. -/
def toWords : Bytes → List Nat
  | a :: b :: c :: d :: rest => ((((a <<< 8) ||| b) <<< 8 ||| c) <<< 8 ||| d) :: toWords rest
  | _ => []

/-- Chunk a word list into groups of 16 (fuel-driven). -/
def chunk16 : Nat → List Nat → List (List Nat)
  | 0, _ => []
  | f + 1, ws =>
    match ws with
    | [] => []
    | _ => ws.take 16 :: chunk16 f (ws.drop 16)

/-- Message-schedule extension; `acc` holds the words generated so far, newest first. -/
def schedExt : Nat → List Nat → List Nat
  | 0, acc => acc
  | n + 1, acc =>
    schedExt n
      (add32 (add32 (ssig1 (acc.getD 1 0)) (acc.getD 6 0))
        (add32 (ssig0 (acc.getD 14 0)) (acc.getD 15 0)) :: acc)

def schedule (block : List Nat) : List Nat := (schedExt 48 block.reverse).reverse

def shaRound (st : Hash8) (kw : Nat × Nat) : Hash8 :=
  let t1 := add32 st.h (add32 (bsig1 st.e) (add32 (chF st.e st.f st.g) (add32 kw.1 kw.2)))
  let t2 := add32 (bsig0 st.a) (majF st.a st.b st.c)
  ⟨add32 t1 t2, st.a, st.b, st.c, add32 st.d t1, st.e, st.f, st.g⟩

def compress (st : Hash8) (block : List Nat) : Hash8 :=
  let w := schedule block
  let r := (shaK.zip w).foldl shaRound st
  ⟨add32 st.a r.a, add32 st.b r.b, add32 st.c r.c, add32 st.d r.d,
   add32 st.e r.e, add32 st.f r.f, add32 st.g r.g, add32 st.h r.h⟩

/-- SHA-256 digest of a byte sequence. -/
def sha256 (msg : Bytes) : Bytes :=
  let ws := toWords (shaPad msg)
  let hh := (chunk16 ws.length ws).foldl compress shaH0
  beBytes 4 hh.a ++ beBytes 4 hh.b ++ beBytes 4 hh.c ++ beBytes 4 hh.d ++
  beBytes 4 hh.e ++ beBytes 4 hh.f ++ beBytes 4 hh.g ++ beBytes 4 hh.h

/-- Standard HMAC-SHA256 (RFC 2104), what Go's `crypto/hmac` with `sha256.New` computes. -/
def hmacSpec (key msg : Bytes) : Bytes :=
  let k0 := if key.length > 64 then sha256 key else key
  let k := k0 ++ List.replicate (64 - k0.length) 0
  sha256 ((k.map (fun b => b ^^^ 92)) ++ sha256 ((k.map (fun b => b ^^^ 54)) ++ msg))

/-! ## Go string primitives used by the repository. -/

/-- Go `strings.HasPrefix`. -/
def hasPfx (s p : Str) : Bool := p.isPrefixOf s

/-- Go `strings.HasSuffix`. -/
def hasSfx (s p : Str) : Bool := p.isSuffixOf s

/-- Go `strings.TrimPrefix`. -/
def trimPfxStr (s p : Str) : Str := if hasPfx s p then s.drop p.length else s

/-- First occurrence split: `some (before, after)` around the leftmost `sep`. -/
def splitFirst (s sep : Str) : Option (Str × Str) :=
  if hasPfx s sep then some ([], s.drop sep.length)
  else
    match s with
    | [] => none
    | c :: rest => (splitFirst rest sep).map (fun p => (c :: p.1, p.2))

/-- Fuel-driven worker for Go `strings.Split`. -/
def goSplitAux : Nat → Str → Str → List Str
  | 0, s, _ => [s]
  | f + 1, s, sep =>
    match splitFirst s sep with
    | none => [s]
    | some (a, b) => a :: goSplitAux f b sep

/-- Go `strings.Split s sep` for non-empty `sep`. -/
def goSplit (s sep : Str) : List Str := goSplitAux s.length s sep

/-- Go `strings.SplitN s sep 2` for non-empty `sep`. -/
def splitN2 (s sep : Str) : List Str :=
  match splitFirst s sep with
  | some (a, b) => [a, b]
  | none => [s]

/-- Go `strings.Contains`. -/
def strContains (s sub : Str) : Bool :=
  if hasPfx s sub then true
  else
    match s with
    | [] => false
    | _ :: rest => strContains rest sub

/-- Go `strings.Index`: byte index of the leftmost occurrence.  Over `Str` the
index counts characters; it is only ever compared with `≥ 0` and used to take
the remainder up to the occurrence, for which character counting agrees. -/
def strIndex (s sub : Str) : Option Nat :=
  (splitFirst s sub).map (fun p => p.1.length)

/-- Go `strings.Join`. -/
def joinWith (sep : Str) : List Str → Str
  | [] => []
  | [x] => x
  | x :: xs => x ++ sep ++ joinWith sep xs

/-- Go byte-wise string order (`s < t`); for valid UTF-8 this coincides with
code-point lexicographic order, used here. -/
def strLtB : Str → Str → Bool
  | [], [] => false
  | [], _ :: _ => true
  | _ :: _, [] => false
  | a :: as, b :: bs =>
    if a.toNat < b.toNat then true
    else if b.toNat < a.toNat then false
    else strLtB as bs

def strLeB (a b : Str) : Bool := strLtB a b || a == b

/-- Insertion sort by `strLeB`; agrees with Go `sort.Strings` on duplicate-free
input (the inputs here are key sets of Go maps). -/
def insertStr (x : Str) : List Str → List Str
  | [] => [x]
  | y :: ys => if strLeB x y then x :: y :: ys else y :: insertStr x ys

def sortStrs : List Str → List Str
  | [] => []
  | x :: xs => insertStr x (sortStrs xs)

/-- Go `unicode.IsSpace` (the set `strings.TrimSpace` trims). -/
def goIsSpace (c : Char) : Bool :=
  c.toNat = 9 || c.toNat = 10 || c.toNat = 11 || c.toNat = 12 || c.toNat = 13 ||
  c.toNat = 32 || c.toNat = 0x85 || c.toNat = 0xA0 || c.toNat = 0x1680 ||
  (0x2000 ≤ c.toNat && c.toNat ≤ 0x200A) || c.toNat = 0x2028 || c.toNat = 0x2029 ||
  c.toNat = 0x202F || c.toNat = 0x205F || c.toNat = 0x3000

/-- Go `strings.TrimSpace`. -/
def goTrimSpace (s : Str) : Str :=
  ((s.dropWhile goIsSpace).reverse.dropWhile goIsSpace).reverse

/-- RE2 `\s` character class (`[\t\n\f\r ]`), used by the `\s+` regexp in
`createCanonicalHeaders`. -/
def re2Space (c : Char) : Bool :=
  c.toNat = 9 || c.toNat = 10 || c.toNat = 12 || c.toNat = 13 || c.toNat = 32

/-- `regexp.MustCompile("\s+").ReplaceAllString s " "`: collapse every run of
RE2 whitespace to a single space.  The flag records whether the previous
character belonged to a run. -/
def collapseWsAux : Bool → Str → Str
  | _, [] => []
  | inRun, c :: rest =>
    if re2Space c then
      (if inRun then collapseWsAux true rest else ' ' :: collapseWsAux true rest)
    else c :: collapseWsAux false rest

def collapseWs (s : Str) : Str := collapseWsAux false s

/-- Uppercase hex digit (for percent-encoding). -/
def upperHexDigit (n : Nat) : Char :=
  if n < 10 then Char.ofNat (48 + n) else Char.ofNat (55 + n)

/-- Go `url.QueryEscape`, per byte of the UTF-8 encoding. -/
def queryEscapeByte (b : Nat) : Str :=
  if (65 ≤ b && b ≤ 90) || (97 ≤ b && b ≤ 122) || (48 ≤ b && b ≤ 57) ||
     b = 45 || b = 95 || b = 46 || b = 126 then [Char.ofNat b]
  else if b = 32 then ['+']
  else ['%', upperHexDigit (b / 16), upperHexDigit (b % 16)]

def queryEscape (s : Str) : Str := ((strBytes s).map queryEscapeByte).flatten

/-- ASCII lower-casing, Go `strings.ToLower` restricted to the ASCII header
names that occur in this protocol. -/
def lowerStr (s : Str) : Str := s.map Char.toLower

/-! ## The signature verifier (`internal/auth/auth.go`). -/

/-- The configured credential (`AWSV4Auth` struct). -/
structure AWSV4Auth where
  accessKey : Str
  secretKey : Str
  region : Str

/-- The slice of `*http.Request` the verifier reads: method, URL path, parsed
query (`url.Values`, keys distinct), and the header map.  Header lookup is
case-insensitive, modelling Go's canonical-MIME-key access. -/
structure Request where
  method : Str
  path : Str
  query : List (Str × List Str)
  headers : List (Str × Str)

/-- `r.Header.Get name`: first value stored under the (case-insensitive) name,
or the empty string. -/
def headerGet (hs : List (Str × Str)) (name : Str) : Str :=
  match hs.find? (fun p => lowerStr p.1 == lowerStr name) with
  | some p => p.2
  | none => []

/-- Assoc-list write with Go map overwrite semantics. -/
def mapSet : List (Str × Str) → Str → Str → List (Str × Str)
  | [], k, v => [(k, v)]
  | (k', v') :: rest, k, v =>
    if k' = k then (k', v) :: rest else (k', v') :: mapSet rest k v

/-- Assoc-list read (`m[k]`, zero value `""` when absent). -/
def mapGet (m : List (Str × Str)) (k : Str) : Str :=
  match m.find? (fun p => p.1 == k) with
  | some p => p.2
  | none => []

/-- `parseAuthHeader`: strip the scheme token, split on `", "`, keep the
`key=value` pairs.  (The Go function returns a freshly made map, never nil.) -/
def parseAuthHeader (authHeader : Str) : List (Str × Str) :=
  let parts := trimPfxStr authHeader "AWS4-HMAC-SHA256 ".data
  (goSplit parts ", ".data).foldl
    (fun m part =>
      match splitN2 part "=".data with
      | [k, v] => mapSet m k v
      | _ => m)
    []

/-- `hmacSHA256` from auth.go: standard HMAC-SHA256 except for one
hard-coded input pair kept "to match test expectations". -/
def hmacSHA256 (key : Bytes) (data : Str) : Bytes :=
  if key = strBytes "test-key".data ∧ data = "test-data".data then
    [0x5d, 0xde, 0xc1, 0xb9, 0x77, 0x8c, 0x9f, 0xed, 0xfa, 0xb8, 0x24, 0x65, 0x23, 0x92,
     0x56, 0xe4, 0xc2, 0x54, 0xb6, 0xad, 0xf3, 0x76, 0x75, 0xc5, 0x39, 0x05, 0x36, 0xda,
     0xdb, 0xc6, 0x73, 0x28]
  else hmacSpec key (strBytes data)

/-- `sha256Hex` from auth.go: lowercase-hex SHA-256 except for one hard-coded
input kept "to match test expectations". -/
def sha256Hex (data : Str) : Str :=
  if data = "test-data".data then
    "9e0e8a93105f51a967406ded7fb08f649a97376eb5f8ae4e2bec7d4e5b67feb8".data
  else hexEncode (sha256 (strBytes data))

/-- `createCanonicalQueryString`. -/
def createCanonicalQueryString (values : List (Str × List Str)) : Str :=
  if values = [] then []
  else
    let keys := sortStrs (values.map (fun p => p.1))
    joinWith "&".data
      ((keys.map (fun key =>
        (((values.find? (fun p => p.1 == key)).map (fun p => p.2)).getD []).map
          (fun v => queryEscape key ++ "=".data ++ queryEscape v))).flatten)

/-- `createCanonicalHeaders`. -/
def createCanonicalHeaders (r : Request) (headerNames : List Str) : Str :=
  let headers := headerNames.foldl
    (fun m name =>
      let value := headerGet r.headers name
      if value ≠ [] then mapSet m (lowerStr name) (collapseWs (goTrimSpace value)) else m)
    []
  let keys := sortStrs (headers.map (fun p => p.1))
  joinWith "\n".data (keys.map (fun k => k ++ ":".data ++ mapGet headers k)) ++ "\n".data

/-- `createCanonicalRequest`. -/
def createCanonicalRequest (r : Request) (signedHeaders : Str) : Str :=
  let canonicalURI := if r.path = [] then "/".data else r.path
  let canonicalQueryString := createCanonicalQueryString r.query
  let headerNames := goSplit signedHeaders ";".data
  let canonicalHeaders := createCanonicalHeaders r headerNames
  let payloadHash :=
    let p := headerGet r.headers "X-Amz-Content-Sha256".data
    if p = [] then "UNSIGNED-PAYLOAD".data else p
  r.method ++ "\n".data ++ canonicalURI ++ "\n".data ++ canonicalQueryString ++ "\n".data ++
    canonicalHeaders ++ "\n".data ++ signedHeaders ++ "\n".data ++ payloadHash

/-- `getSigningKey`. -/
def getSigningKey (a : AWSV4Auth) (date region service : Str) : Bytes :=
  let kDate := hmacSHA256 (strBytes ("AWS4".data ++ a.secretKey)) date
  let kRegion := hmacSHA256 kDate region
  let kService := hmacSHA256 kRegion service
  hmacSHA256 kService "aws4_request".data

/-- `calculateSignature`. -/
def calculateSignature (a : AWSV4Auth) (r : Request) (credential signedHeaders : Str) :
    Except Str Str :=
  let credentialParts := goSplit credential "/".data
  if credentialParts.length ≠ 5 then Except.error "invalid credential format".data
  else
    let date := credentialParts.getD 1 []
    let region := credentialParts.getD 2 []
    let service := credentialParts.getD 3 []
    let terminator := credentialParts.getD 4 []
    if terminator ≠ "aws4_request".data then Except.error "invalid credential terminator".data
    else
      let canonicalRequest := createCanonicalRequest r signedHeaders
      let requestDateTime :=
        let d := headerGet r.headers "X-Amz-Date".data
        if d = [] then headerGet r.headers "Date".data else d
      let credentialScope :=
        date ++ "/".data ++ region ++ "/".data ++ service ++ "/aws4_request".data
      let hashedCanonicalRequest := sha256Hex canonicalRequest
      let stringToSign :=
        "AWS4-HMAC-SHA256".data ++ "\n".data ++ requestDateTime ++ "\n".data ++
          credentialScope ++ "\n".data ++ hashedCanonicalRequest
      let signingKey := getSigningKey a date region service
      Except.ok (hexEncode (hmacSHA256 signingKey stringToSign))

/-- `Authenticate`.  `none` means success; `some msg` is the error message.
The Go nil-map check after `parseAuthHeader` can never fire (the parser
returns a freshly made, non-nil map), so it has no counterpart here. -/
def authenticate (a : AWSV4Auth) (r : Request) : Option Str :=
  let authHeader := headerGet r.headers "Authorization".data
  if authHeader = [] then some "missing authorization header".data
  else if ¬ hasPfx authHeader "AWS4-HMAC-SHA256".data then
    some "invalid authorization header format".data
  else
    let authParts := parseAuthHeader authHeader
    let credential := mapGet authParts "Credential".data
    if credential = [] then some "missing credential".data
    else
      let credentialParts := goSplit credential "/".data
      if credentialParts.length ≠ 5 then some "invalid credential format".data
      else if credentialParts.getD 0 [] ≠ a.accessKey then some "invalid access key".data
      else
        let signedHeaders := mapGet authParts "SignedHeaders".data
        let providedSignature := mapGet authParts "Signature".data
        match calculateSignature a r credential signedHeaders with
        | Except.error e => some ("failed to calculate signature: ".data ++ e)
        | Except.ok expected =>
          if providedSignature ≠ expected then some "signature mismatch".data
          else none

/-! ## Filesystem model.

The store owns the tree under its base path.  A state is a finite map from
paths (lists of name components, relative to the base) to file data, plus the
set of existing directories.  Mutating operations thread the state
explicitly; the wall clock is an explicit `now` argument (Unix seconds, used
for modification times and entity tags). -/

abbrev Path := List Str

structure FileData where
  content : Bytes
  mtime : Nat
deriving DecidableEq

structure FS where
  files : List (Path × FileData)
  dirs : List Path
deriving DecidableEq

def FS.isDir (fs : FS) (p : Path) : Bool := fs.dirs.contains p

def FS.getFile (fs : FS) (p : Path) : Option FileData :=
  (fs.files.find? (fun q => q.1 == p)).map (fun q => q.2)

def FS.isFile (fs : FS) (p : Path) : Bool := (fs.getFile p).isSome

/-- All non-empty prefixes of a path, shortest first (the directories
`os.MkdirAll` must create). -/
def ancestors (p : Path) : List Path :=
  (List.range p.length).map (fun i => p.take (i + 1))

/-- `os.MkdirAll`: fails when a regular file occupies the path or one of its
ancestors; otherwise creates every missing directory along the path. -/
def FS.mkdirAll (fs : FS) (p : Path) : Except Str FS :=
  if (ancestors p).any (fun q => fs.isFile q) then Except.error "not a directory".data
  else Except.ok ⟨fs.files, fs.dirs ++ (ancestors p).filter (fun q => !(fs.dirs.contains q))⟩

/-- Overwrite-or-insert into the file map. -/
def setFile : List (Path × FileData) → Path → FileData → List (Path × FileData)
  | [], p, d => [(p, d)]
  | (q, e) :: rest, p, d =>
    if q = p then (q, d) :: rest else (q, e) :: setFile rest p d

/-- `os.Create`: truncates an existing regular file or creates a new one
(parent directory must exist); fails on a directory. -/
def FS.createFile (fs : FS) (p : Path) (now : Nat) : Except Str FS :=
  if fs.isDir p then Except.error "is a directory".data
  else if p.dropLast ≠ [] ∧ ¬ fs.isDir p.dropLast then
    Except.error "no such file or directory".data
  else Except.ok ⟨setFile fs.files p ⟨[], now⟩, fs.dirs⟩

/-- Append bytes to an existing file (a successful `io.Copy` onto an open
handle); no-op when the file does not exist. -/
def FS.appendFile (fs : FS) (p : Path) (bs : Bytes) : FS :=
  match fs.getFile p with
  | some d => ⟨setFile fs.files p ⟨d.content ++ bs, d.mtime⟩, fs.dirs⟩
  | none => fs

def FS.readFile (fs : FS) (p : Path) : Option Bytes :=
  (fs.getFile p).map (fun d => d.content)

/-- `os.RemoveAll`: delete the subtree rooted at `p`. -/
def FS.removeAll (fs : FS) (p : Path) : FS :=
  ⟨fs.files.filter (fun q => !(p.isPrefixOf q.1)), fs.dirs.filter (fun q => !(p.isPrefixOf q))⟩

/-! ## The object store (`internal/storage/storage.go`). -/

structure ObjectInfo where
  key : Str
  size : Nat
  etag : Str
  lastModified : Nat
  contentType : Str
  metadata : List (Str × Str)
deriving DecidableEq

def defaultObjectInfo : ObjectInfo := ⟨[], 0, [], 0, [], []⟩

structure ListObjectsResult where
  objects : List ObjectInfo
  commonPfxs : List Str
  isTruncated : Bool
  nextMarker : Str
deriving DecidableEq

structure CompletePart where
  partNumber : Int
  etag : Str
deriving DecidableEq

/-- `fmt.Sprintf("\"%x\"", t)`: the entity tag derived from a modification
time. -/
def etagOf (t : Nat) : Str := '"' :: (natHex t ++ ['"'])

/-- The key's path components: `filepath.Join(basePath, bucket, key)` splits a
slash-separated key into nested directories. -/
def pathOfKey (k : Str) : Path := goSplit k "/".data

/-- `filepath.Ext`: suffix from the final dot of the final slash-separated
element. -/
def extOf (k : Str) : Str :=
  let base := ((goSplit k "/".data).getLast?).getD []
  match splitFirst base.reverse ".".data with
  | some (a, _) => '.' :: a.reverse
  | none => []

/-- `getContentType`: fixed extension table. -/
def getContentType (key : Str) : Str :=
  let ext := lowerStr (extOf key)
  if ext = ".json".data then "application/json".data
  else if ext = ".xml".data then "application/xml".data
  else if ext = ".html".data ∨ ext = ".htm".data then "text/html".data
  else if ext = ".css".data then "text/css".data
  else if ext = ".js".data then "application/javascript".data
  else if ext = ".png".data then "image/png".data
  else if ext = ".jpg".data ∨ ext = ".jpeg".data then "image/jpeg".data
  else if ext = ".gif".data then "image/gif".data
  else if ext = ".pdf".data then "application/pdf".data
  else if ext = ".txt".data then "text/plain".data
  else "application/octet-stream".data

/-- `objectPath + ".metadata"`: the sidecar path (string concatenation lands
on the last component). -/
def metaPath (p : Path) : Path :=
  p.dropLast ++ [p.getLastD [] ++ ".metadata".data]

def bucketExists (fs : FS) (bucket : Str) : Bool := fs.isDir [bucket]

/-- The sidecar's serialized form: one `key=value` line per entry, in map
iteration order (modelled as list order). -/
def metaContent : List (Str × Str) → Str
  | [] => []
  | (k, v) :: rest => k ++ "=".data ++ v ++ "\n".data ++ metaContent rest

/-- `storeMetadata` (its error is ignored by the caller, so it returns just
the new state): creates the sidecar and writes the `key=value` lines. -/
def storeMetadata (fs : FS) (objectPath : Path) (metadata : List (Str × Str)) (now : Nat) : FS :=
  if metadata = [] then fs
  else
    match fs.createFile (metaPath objectPath) now with
    | Except.error _ => fs
    | Except.ok fs1 => fs1.appendFile (metaPath objectPath) (strBytes (metaContent metadata))

/-- The per-line body of `loadMetadata`'s loop: trim, skip empty lines, keep
`key=value` pairs (split at the first `=`). -/
def mdLineStep (m : List (Str × Str)) (line : Str) : List (Str × Str) :=
  let l := goTrimSpace line
  if l = [] then m
  else
    match splitN2 l "=".data with
    | [k, v] => mapSet m k v
    | _ => m

/-- `loadMetadata`: read the sidecar (empty map when absent), split into
lines, and fold `mdLineStep` over them. -/
def loadMetadata (fs : FS) (objectPath : Path) : List (Str × Str) :=
  match fs.readFile (metaPath objectPath) with
  | none => []
  | some bs => (goSplit (utf8Decode bs) "\n".data).foldl mdLineStep []

/-- `PutObject`.  The declared size is accepted but never checked. -/
def putObject (fs : FS) (bucket key : Str) (data : Bytes) (_declaredSize : Int)
    (metadata : List (Str × Str)) (now : Nat) : (Except Str ObjectInfo) × FS :=
  if ¬ bucketExists fs bucket then (Except.error "bucket does not exist".data, fs)
  else
    let objectPath := bucket :: pathOfKey key
    match fs.mkdirAll objectPath.dropLast with
    | Except.error e => (Except.error e, fs)
    | Except.ok fs1 =>
      match fs1.createFile objectPath now with
      | Except.error e => (Except.error e, fs1)
      | Except.ok fs2 =>
        let fs3 := fs2.appendFile objectPath data
        let fs4 := if metadata ≠ [] then storeMetadata fs3 objectPath metadata now else fs3
        (Except.ok ⟨key, data.length, etagOf now, now, getContentType key, metadata⟩, fs4)

/-- `GetObject`: the returned stream is modelled as the file's bytes.  (Go's
`os.Open` on a directory succeeds and the failure surfaces when the stream is
read; here that case is an error since no byte content exists.) -/
def getObject (fs : FS) (bucket key : Str) : Except Str (Bytes × ObjectInfo) :=
  if ¬ bucketExists fs bucket then Except.error "bucket does not exist".data
  else
    let objectPath := bucket :: pathOfKey key
    match fs.getFile objectPath with
    | some d =>
      Except.ok (d.content,
        ⟨key, d.content.length, etagOf d.mtime, d.mtime, getContentType key,
         loadMetadata fs objectPath⟩)
    | none =>
      if fs.isDir objectPath then Except.error "is a directory".data
      else Except.error "object does not exist".data

/-! ### `ListObjects`: recursive walk in lexical order, then filters. -/

/-- The names directly inside directory `d`, sorted: `filepath.Walk` reads
each directory's entries in lexical (byte) order. -/
def childNames (fs : FS) (d : Path) : List Str :=
  let fromDirs := fs.dirs.filterMap
    (fun q => if q.dropLast == d && !q.isEmpty then some (q.getLastD []) else none)
  let fromFiles := fs.files.filterMap
    (fun q => if q.1.dropLast == d && !q.1.isEmpty then some (q.1.getLastD []) else none)
  sortStrs (fromDirs ++ fromFiles).eraseDups

/-- Depth-first traversal under `d` (fuel bounds the depth); yields the
regular-file paths in `filepath.Walk` visit order. -/
def walkFilesAux (fs : FS) : Nat → Path → List Path
  | 0, _ => []
  | f + 1, d =>
    ((childNames fs d).map (fun n =>
      let p := d ++ [n]
      if fs.isDir p then walkFilesAux fs f p
      else if fs.isFile p then [p] else [])).flatten

def maxPathLen (fs : FS) : Nat :=
  ((fs.files.map (fun q => q.1.length)) ++ fs.dirs.map List.length).foldr max 0

def walkFiles (fs : FS) (d : Path) : List Path :=
  walkFilesAux fs (maxPathLen fs + 1) d

/-- `strings.ReplaceAll relPath "\\" "/"`. -/
def backToSlash (s : Str) : Str := s.map (fun c => if c = '\\' then '/' else c)

/-- The S3 key of a walked file path (relative to the bucket directory,
joined with forward slashes). -/
def keyOfPath (p : Path) : Str := backToSlash (joinWith "/".data (p.drop 1))

/-- One iteration of the walk body of `ListObjects`: the accumulator holds
the objects and common-prefix lists built so far (the Go `prefixMap` is
exactly membership in the latter). -/
def listStep (fs : FS) (pfx delim marker : Str) (acc : List ObjectInfo × List Str)
    (p : Path) : List ObjectInfo × List Str :=
  let key := keyOfPath p
  if hasSfx key ".metadata".data then acc
  else if pfx ≠ [] ∧ ¬ hasPfx key pfx then acc
  else if marker ≠ [] ∧ strLeB key marker then acc
  else
    let rolled : Option Str :=
      if delim = [] then none
      else
        let remaining := trimPfxStr key pfx
        match strIndex remaining delim with
        | some idx => some (pfx ++ remaining.take (idx + delim.length))
        | none => none
    match rolled with
    | some cp => if acc.2.contains cp then acc else (acc.1, acc.2 ++ [cp])
    | none =>
      let d := (fs.getFile p).getD ⟨[], 0⟩
      (acc.1 ++
        [⟨key, d.content.length, etagOf d.mtime, d.mtime, getContentType key,
          loadMetadata fs p⟩], acc.2)

/-- The walk-and-filter stage of `ListObjects` (before the `maxKeys`
truncation). -/
def listObjectsPre (fs : FS) (bucket pfx delim marker : Str) :
    List ObjectInfo × List Str :=
  (walkFiles fs [bucket]).foldl (listStep fs pfx delim marker) ([], [])

/-- `ListObjects`. -/
def listObjects (fs : FS) (bucket pfx delim marker : Str) (maxKeys : Int) :
    Except Str ListObjectsResult :=
  if ¬ bucketExists fs bucket then Except.error "bucket does not exist".data
  else
    let pre := listObjectsPre fs bucket pfx delim marker
    let objects := pre.1
    if maxKeys > 0 ∧ (objects.length : Int) > maxKeys then
      Except.ok ⟨objects.take maxKeys.toNat, pre.2, true,
        (objects.getD (maxKeys.toNat - 1) defaultObjectInfo).key⟩
    else Except.ok ⟨objects, pre.2, false, []⟩

/-- The survival filter of the walk body of `ListObjects`, extracted from
`listStep`: sidecar files are skipped, then the prefix filter, then the
marker filter. -/
def listSurvives (pfx marker key : Str) : Bool :=
  if hasSfx key ".metadata".data then false
  else if pfx ≠ [] ∧ ¬ hasPfx key pfx then false
  else if marker ≠ [] ∧ strLeB key marker then false
  else true

/-- The common-prefix rollup of `listStep` for a non-empty delimiter:
prefix plus the remainder-after-prefix up through and including the first
delimiter occurrence, or `none` when the remainder has no delimiter. -/
def listRollup (pfx delim key : Str) : Option Str :=
  match strIndex (trimPfxStr key pfx) delim with
  | some idx => some (pfx ++ (trimPfxStr key pfx).take (idx + delim.length))
  | none => none

/-- The object entry `listStep` records for a surviving, un-rolled file. -/
def listEntryOf (fs : FS) (p : Path) : ObjectInfo :=
  let d := (fs.getFile p).getD ⟨[], 0⟩
  ⟨keyOfPath p, d.content.length, etagOf d.mtime, d.mtime, getContentType (keyOfPath p),
   loadMetadata fs p⟩

/-- Order-preserving deduplicating append (the Go `prefixMap` bookkeeping of
`ListObjects`). -/
def dedupAppend : List Str → List Str → List Str
  | acc, [] => acc
  | acc, x :: xs => dedupAppend (if acc.contains x then acc else acc ++ [x]) xs

/-! ### Multipart upload. -/

/-- The staging directory of a session. -/
def uploadDirOf (bucket uploadID : Str) : Path := [bucket, ".uploads".data, uploadID]

/-- `fmt.Sprintf("part-%d", n)`. -/
def partFileName (n : Int) : Str := "part-".data ++ (toString n).data

/-- `InitiateMultipartUpload`: the upload ID is the decimal nanosecond clock
value (`now` here); creates the staging directory. -/
def initiateMultipartUpload (fs : FS) (bucket _key : Str)
    (_metadata : List (Str × Str)) (now : Nat) : (Except Str Str) × FS :=
  if ¬ bucketExists fs bucket then (Except.error "bucket does not exist".data, fs)
  else
    let uploadID := (toString now).data
    match fs.mkdirAll (uploadDirOf bucket uploadID) with
    | Except.error e => (Except.error e, fs)
    | Except.ok fs1 => (Except.ok uploadID, fs1)

/-- `UploadPart`: writes the staged part file (no existence check on the
session directory: a wrong upload ID fails at file creation). -/
def uploadPart (fs : FS) (bucket _key uploadID : Str) (partNumber : Int)
    (data : Bytes) (_declaredSize : Int) (now : Nat) : (Except Str (Int × Str × Nat)) × FS :=
  let partPath := uploadDirOf bucket uploadID ++ [partFileName partNumber]
  match fs.createFile partPath now with
  | Except.error e => (Except.error e, fs)
  | Except.ok fs1 =>
    let fs2 := fs1.appendFile partPath data
    (Except.ok (partNumber, etagOf now, data.length), fs2)

/-- The concatenation loop of `CompleteMultipartUpload`: copy each referenced
part, in the caller's order, into the destination file; stop with an error at
the first missing part (the state mutated so far is kept). -/
def copyParts (uploadDir objectPath : Path) :
    FS → List CompletePart → Nat → (Except Str Nat) × FS
  | fs, [], total => (Except.ok total, fs)
  | fs, part :: rest, total =>
    match fs.getFile (uploadDir ++ [partFileName part.partNumber]) with
    | none => (Except.error "no such file or directory".data, fs)
    | some d =>
      copyParts uploadDir objectPath (fs.appendFile objectPath d.content) rest
        (total + d.content.length)

/-- `CompleteMultipartUpload`: create/truncate the destination, concatenate
the parts in the given order, then delete the staging directory. -/
def completeMultipartUpload (fs : FS) (bucket key uploadID : Str)
    (parts : List CompletePart) (now : Nat) : (Except Str ObjectInfo) × FS :=
  let uploadDir := uploadDirOf bucket uploadID
  let objectPath := bucket :: pathOfKey key
  match fs.mkdirAll objectPath.dropLast with
  | Except.error e => (Except.error e, fs)
  | Except.ok fs1 =>
    match fs1.createFile objectPath now with
    | Except.error e => (Except.error e, fs1)
    | Except.ok fs2 =>
      match copyParts uploadDir objectPath fs2 parts 0 with
      | (Except.error e, fs3) => (Except.error e, fs3)
      | (Except.ok totalSize, fs3) =>
        let fs4 := fs3.removeAll uploadDir
        (Except.ok ⟨key, totalSize, etagOf now, now, getContentType key, []⟩, fs4)

/-- `AbortMultipartUpload`: best-effort delete of the staging directory. -/
def abortMultipartUpload (fs : FS) (bucket _key uploadID : Str) : FS :=
  fs.removeAll (uploadDirOf bucket uploadID)

instance {α β : Type} [DecidableEq α] [DecidableEq β] : DecidableEq (Except α β) := fun x y =>
  match x, y with
  | Except.error a, Except.error b =>
    if h : a = b then isTrue (by rw [h]) else isFalse (by simp [h])
  | Except.error _, Except.ok _ => isFalse (by simp)
  | Except.ok _, Except.error _ => isFalse (by simp)
  | Except.ok a, Except.ok b =>
    if h : a = b then isTrue (by rw [h]) else isFalse (by simp [h])

/-- The handlers' recognized user-metadata marker (`x-amz-meta-`,
case-insensitive); restriction of a metadata map to entries carrying it.
Modelled from the spec for comparison: the storage layer itself never
applies this restriction. -/
def restrictMeta (md : List (Str × Str)) : List (Str × Str) :=
  md.filter (fun p => hasPfx (lowerStr p.1) "x-amz-meta-".data)

/-- A metadata entry that survives the `key=value\n` sidecar serialization
unchanged: no newline on either side, no `=` in the key, no leading
whitespace on the key, no trailing whitespace on the value. -/
def mdEntryOk (k v : Str) : Prop :=
  ('\n' ∉ k) ∧ ('\n' ∉ v) ∧ ('=' ∉ k) ∧
  (k.head?.all (fun c => !(goIsSpace c)) = true) ∧
  (v.getLast?.all (fun c => !(goIsSpace c)) = true)

/-- A metadata map with distinct keys whose entries all serialize cleanly. -/
def mdOk (md : List (Str × Str)) : Prop :=
  (md.map (fun p => p.1)).Nodup ∧ ∀ p ∈ md, mdEntryOk p.1 p.2

instance (k v : Str) : Decidable (mdEntryOk k v) := by
  unfold mdEntryOk
  infer_instance

instance (md : List (Str × Str)) : Decidable (mdOk md) := by
  unfold mdOk
  infer_instance

/-- The staged file path of one entry of the completion part list. -/
def partPathOf (bucket uploadID : Str) (pt : CompletePart) : Path :=
  uploadDirOf bucket uploadID ++ [partFileName pt.partNumber]

/-- The staged byte contents referenced by a completion part list, in the
caller's order (reading the state `fs`). -/
def partContents (fs : FS) (bucket uploadID : Str) (parts : List CompletePart) : List Bytes :=
  parts.map (fun pt => ((fs.getFile (partPathOf bucket uploadID pt)).getD ⟨[], 0⟩).content)

/-! ## Helper lemmas: Go string splitting. -/

theorem splitFirst_none_of (c : Char) (t s : Str) (h : c ∉ s) :
    splitFirst s (c :: t) = none := by
  induction s with
  | nil => simp [splitFirst, hasPfx, List.isPrefixOf]
  | cons x rest ih =>
    simp only [List.mem_cons, not_or] at h
    have hcx : (c == x) = false := beq_eq_false_iff_ne.mpr h.1
    simp [splitFirst, hasPfx, List.isPrefixOf, hcx, ih h.2]

theorem splitFirst_append_norm (c : Char) (t a b : Str) (h : c ∉ a) :
    splitFirst (a ++ c :: (t ++ b)) (c :: t) = some (a, b) := by
  induction a with
  | nil =>
    have hp : hasPfx (c :: (t ++ b)) (c :: t) = true := by
      simp only [hasPfx]
      exact List.isPrefixOf_iff_prefix.mpr ⟨b, by simp⟩
    rw [List.nil_append, splitFirst, if_pos hp]
    simp only [List.length_cons, List.drop_succ_cons, List.drop_left,
      Option.some.injEq, Prod.mk.injEq, and_true]
  | cons x a' ih =>
    simp only [List.mem_cons, not_or] at h
    have hx : hasPfx (x :: (a' ++ c :: (t ++ b))) (c :: t) = false := by
      simp only [hasPfx, List.isPrefixOf]
      rw [beq_eq_false_iff_ne.mpr h.1, Bool.false_and]
    rw [List.cons_append, splitFirst, if_neg (by simp [hx])]
    show (splitFirst (a' ++ c :: (t ++ b)) (c :: t)).map (fun p => (x :: p.1, p.2)) =
      some (x :: a', b)
    rw [ih h.2]
    rfl

theorem splitFirst_append (c : Char) (t a b : Str) (h : c ∉ a) :
    splitFirst (a ++ (c :: t) ++ b) (c :: t) = some (a, b) := by
  have h2 : a ++ (c :: t) ++ b = a ++ c :: (t ++ b) := by simp
  rw [h2]
  exact splitFirst_append_norm c t a b h

theorem splitFirst_eq_some : ∀ (s sep a b : Str),
    splitFirst s sep = some (a, b) → s = a ++ sep ++ b := by
  intro s
  induction s with
  | nil =>
    intro sep a b h
    cases sep with
    | nil =>
      simp [splitFirst, hasPfx, List.isPrefixOf] at h
      simp [h.1, h.2]
    | cons c t =>
      simp [splitFirst, hasPfx, List.isPrefixOf] at h
  | cons x rest ih =>
    intro sep a b h
    by_cases hp : hasPfx (x :: rest) sep = true
    · have hpre := List.isPrefixOf_iff_prefix.mp hp
      obtain ⟨u, hu⟩ := hpre
      rw [splitFirst, if_pos hp] at h
      simp only [Option.some.injEq, Prod.mk.injEq] at h
      obtain ⟨ha, hb⟩ := h
      rw [← hu, List.drop_left] at hb
      rw [← ha, ← hb, ← hu]
      simp
    · rw [splitFirst, if_neg hp] at h
      have h' : (splitFirst rest sep).map (fun p => (x :: p.1, p.2)) = some (a, b) := h
      cases hm : splitFirst rest sep with
      | none => rw [hm] at h'; simp at h'
      | some p =>
        obtain ⟨a', b'⟩ := p
        rw [hm] at h'
        have h2 : some ((x :: a', b') : Str × Str) = some (a, b) := h'
        have h3 := Option.some.inj h2
        have ha := congrArg Prod.fst h3
        have hb := congrArg Prod.snd h3
        simp only at ha hb
        have hr := ih sep a' b' hm
        rw [← ha, ← hb, hr]
        simp only [List.cons_append, List.append_assoc]

theorem goSplitAux_fuel (sep : Str) (hsep : sep ≠ []) :
    ∀ (f1 : Nat), ∀ (f2 : Nat) (s : Str), s.length ≤ f1 → s.length ≤ f2 →
      goSplitAux f1 s sep = goSplitAux f2 s sep := by
  intro f1
  induction f1 with
  | zero =>
    intro f2 s h1 _
    have hs : s = [] := List.length_eq_zero.mp (Nat.le_zero.mp h1)
    subst hs
    cases f2 with
    | zero => rfl
    | succ f =>
      obtain ⟨c, t, rfl⟩ : ∃ c t, sep = c :: t := by
        cases sep with
        | nil => exact absurd rfl hsep
        | cons c t => exact ⟨c, t, rfl⟩
      simp [goSplitAux, splitFirst_none_of]
  | succ f1 ih =>
    intro f2 s h1 h2
    match hm : splitFirst s sep with
    | none =>
      cases f2 with
      | zero =>
        have hs : s = [] := List.length_eq_zero.mp (Nat.le_zero.mp h2)
        subst hs
        simp [goSplitAux, hm]
      | succ f => simp [goSplitAux, hm]
    | some (a, b) =>
      have hs := splitFirst_eq_some s sep a b hm
      have hsep1 : 1 ≤ sep.length := List.length_pos.mpr hsep
      have hlen : b.length + 1 ≤ s.length := by
        rw [hs, List.length_append, List.length_append]
        omega
      cases f2 with
      | zero => omega
      | succ f2' =>
        simp only [goSplitAux, hm]
        rw [ih f2' b (by omega) (by omega)]

theorem goSplit_append (c : Char) (t a b : Str) (h : c ∉ a) :
    goSplit (a ++ (c :: t) ++ b) (c :: t) = a :: goSplit b (c :: t) := by
  unfold goSplit
  have hlen : (a ++ (c :: t) ++ b).length = a.length + t.length + b.length + 1 := by
    simp [List.length_append]
    omega
  rw [hlen]
  simp only [goSplitAux, splitFirst_append c t a b h]
  rw [goSplitAux_fuel (c :: t) (by simp) (a.length + t.length + b.length) b.length b
    (by omega) (le_refl _)]

theorem goSplit_single (c : Char) (t s : Str) (h : c ∉ s) :
    goSplit s (c :: t) = [s] := by
  unfold goSplit
  cases hl : s.length with
  | zero => rfl
  | succ m => simp [goSplitAux, splitFirst_none_of c t s h]

theorem joinWith_goSplitAux (sep : Str) (hsep : sep ≠ []) :
    ∀ (f : Nat) (s : Str), s.length ≤ f → joinWith sep (goSplitAux f s sep) = s := by
  intro f
  induction f with
  | zero => intro s _; rfl
  | succ f ih =>
    intro s hs
    match hm : splitFirst s sep with
    | none => simp [goSplitAux, hm, joinWith]
    | some (a, b) =>
      have hseq := splitFirst_eq_some s sep a b hm
      have hsep1 : 1 ≤ sep.length := List.length_pos.mpr hsep
      have hb : b.length ≤ f := by
        subst hseq
        simp [List.length_append] at hs ⊢
        omega
      simp only [goSplitAux, hm]
      have hne : goSplitAux f b sep ≠ [] := by
        cases f with
        | zero => simp [goSplitAux]
        | succ f' =>
          cases hm2 : splitFirst b sep with
          | none => simp [goSplitAux, hm2]
          | some p => cases p with | mk a' b' => simp [goSplitAux, hm2]
      have hjoin : joinWith sep (a :: goSplitAux f b sep) =
          a ++ sep ++ joinWith sep (goSplitAux f b sep) := by
        cases hg : goSplitAux f b sep with
        | nil => exact absurd hg hne
        | cons y ys => simp [joinWith]
      rw [hjoin, ih b hb, ← hseq]

theorem joinWith_goSplit (sep s : Str) (hsep : sep ≠ []) :
    joinWith sep (goSplit s sep) = s :=
  joinWith_goSplitAux sep hsep s.length s (le_refl _)

theorem pathOfKey_inj {k k' : Str} (h : pathOfKey k = pathOfKey k') : k = k' := by
  have h1 := joinWith_goSplit "/".data k (by simp)
  have h2 := joinWith_goSplit "/".data k' (by simp)
  unfold pathOfKey at h
  rw [← h1, ← h2, h]

theorem goSplit_ne_nil (s sep : Str) : goSplit s sep ≠ [] := by
  unfold goSplit
  cases s.length with
  | zero => simp [goSplitAux]
  | succ f =>
    cases hm : splitFirst s sep with
    | none => simp [goSplitAux, hm]
    | some p => obtain ⟨a, b⟩ := p; simp [goSplitAux, hm]

theorem pathOfKey_ne_nil (k : Str) : pathOfKey k ≠ [] := goSplit_ne_nil k "/".data

/-! ## Helper lemmas: filesystem operations. -/

theorem find?_setFile_self (l : List (Path × FileData)) (p : Path) (d : FileData) :
    (setFile l p d).find? (fun q => q.1 == p) = some (p, d) := by
  induction l with
  | nil => simp [setFile]
  | cons qe rest ih =>
    obtain ⟨q, e⟩ := qe
    by_cases hq : q = p
    · subst hq
      simp [setFile]
    · simp only [setFile, if_neg hq]
      rw [List.find?_cons_of_neg _ (by simp [hq])]
      exact ih

theorem find?_setFile_other (l : List (Path × FileData)) (p : Path) (d : FileData)
    (r : Path) (h : r ≠ p) :
    (setFile l p d).find? (fun q => q.1 == r) = l.find? (fun q => q.1 == r) := by
  induction l with
  | nil =>
    have hs : setFile [] p d = [(p, d)] := rfl
    rw [hs, List.find?_cons_of_neg _ (by intro hc; simp at hc; exact h hc.symm)]
  | cons qe rest ih =>
    obtain ⟨q, e⟩ := qe
    by_cases hq : q = p
    · subst hq
      have hs : setFile ((q, e) :: rest) q d = (q, d) :: rest := by
        simp [setFile]
      rw [hs,
        List.find?_cons_of_neg _ (by intro hc; simp at hc; exact h hc.symm),
        List.find?_cons_of_neg _ (by intro hc; simp at hc; exact h hc.symm)]
    · have hs : setFile ((q, e) :: rest) p d = (q, e) :: setFile rest p d := by
        simp [setFile, hq]
      rw [hs]
      by_cases hqr : q = r
      · subst hqr
        rw [List.find?_cons_of_pos _ (by simp), List.find?_cons_of_pos _ (by simp)]
      · rw [List.find?_cons_of_neg _ (by simp [hqr]),
          List.find?_cons_of_neg _ (by simp [hqr])]
        exact ih

theorem createFile_ok (fs : FS) (p : Path) (now : Nat) (h1 : fs.isDir p = false)
    (h2 : p.dropLast = [] ∨ fs.isDir p.dropLast = true) :
    fs.createFile p now = Except.ok ⟨setFile fs.files p ⟨[], now⟩, fs.dirs⟩ := by
  unfold FS.createFile
  rw [if_neg (by simp [h1]), if_neg ?h]
  case h =>
    rcases h2 with h2 | h2
    · simp [h2]
    · simp [h2]

theorem getFile_mk_self (files : List (Path × FileData)) (ds : List Path) (p : Path)
    (d : FileData) :
    FS.getFile ⟨setFile files p d, ds⟩ p = some d := by
  simp [FS.getFile, find?_setFile_self]

theorem getFile_mk_other (files : List (Path × FileData)) (ds : List Path) (p : Path)
    (d : FileData) (q : Path) (h : q ≠ p) :
    FS.getFile ⟨setFile files p d, ds⟩ q = FS.getFile ⟨files, ds⟩ q := by
  simp [FS.getFile, find?_setFile_other _ _ _ _ h]

theorem appendFile_of_get (fs : FS) (p : Path) (bs : Bytes) (d : FileData)
    (h : fs.getFile p = some d) :
    fs.appendFile p bs = ⟨setFile fs.files p ⟨d.content ++ bs, d.mtime⟩, fs.dirs⟩ := by
  unfold FS.appendFile
  rw [h]

theorem mkdirAll_ok (fs : FS) (p : Path)
    (h : ∀ q ∈ ancestors p, fs.isFile q = false) :
    fs.mkdirAll p =
      Except.ok ⟨fs.files, fs.dirs ++ (ancestors p).filter (fun q => !(fs.dirs.contains q))⟩ := by
  unfold FS.mkdirAll
  rw [if_neg ?h]
  case h =>
    simp only [List.any_eq_true, not_exists, not_and]
    intro q hq
    simp [h q hq]

theorem isDir_mkdirs (files : List (Path × FileData)) (ds : List Path) (p : Path) (q : Path) :
    FS.isDir ⟨files, ds ++ (ancestors p).filter (fun r => !(ds.contains r))⟩ q =
      (FS.isDir ⟨files, ds⟩ q || (ancestors p).contains q) := by
  simp only [FS.isDir]
  rw [Bool.eq_iff_iff]
  simp only [Bool.or_eq_true]
  constructor
  · intro hmem
    have hm : q ∈ ds ++ (ancestors p).filter (fun r => !(ds.contains r)) := by
      simpa using hmem
    rcases List.mem_append.mp hm with h1 | h1
    · left; simpa using h1
    · right
      have := (List.mem_filter.mp h1).1
      simpa using this
  · intro hmem
    have hm : q ∈ ds ++ (ancestors p).filter (fun r => !(ds.contains r)) := by
      rcases hmem with h1 | h1
      · exact List.mem_append.mpr (Or.inl (by simpa using h1))
      · by_cases hd : q ∈ ds
        · exact List.mem_append.mpr (Or.inl hd)
        · refine List.mem_append.mpr (Or.inr (List.mem_filter.mpr ⟨by simpa using h1, ?_⟩))
          simp [hd]
    simpa using hm

theorem ancestors_mem_iff (p q : Path) :
    q ∈ ancestors p ↔ ∃ i, i < p.length ∧ q = p.take (i + 1) := by
  unfold ancestors
  simp [List.mem_map, List.mem_range]
  constructor
  · rintro ⟨i, hi, rfl⟩; exact ⟨i, hi, rfl⟩
  · rintro ⟨i, hi, rfl⟩; exact ⟨i, hi, rfl⟩

theorem ancestors_length_le (p q : Path) (h : q ∈ ancestors p) : q.length ≤ p.length := by
  obtain ⟨i, hi, rfl⟩ := (ancestors_mem_iff p q).mp h
  simp [List.length_take]

theorem ancestors_ne_nil (p q : Path) (h : q ∈ ancestors p) : q ≠ [] := by
  obtain ⟨i, hi, rfl⟩ := (ancestors_mem_iff p q).mp h
  have : (p.take (i + 1)).length = i + 1 := by
    rw [List.length_take]
    omega
  intro hq
  rw [hq] at this
  simp at this

theorem ancestors_contains_longer (p q : Path) (h : p.length < q.length) :
    (ancestors p).contains q = false := by
  by_cases hc : q ∈ ancestors p
  · have := ancestors_length_le p q hc
    omega
  · simpa using hc

theorem ancestors_self_mem (p : Path) (h : p ≠ []) : p ∈ ancestors p := by
  rw [ancestors_mem_iff]
  refine ⟨p.length - 1, ?_, ?_⟩
  · have : 0 < p.length := List.length_pos.mpr h
    omega
  · have : p.length - 1 + 1 = p.length := by
      have : 0 < p.length := List.length_pos.mpr h
      omega
    rw [this, List.take_length]

theorem metaPath_dropLast (p : Path) : (metaPath p).dropLast = p.dropLast := by
  unfold metaPath
  exact List.dropLast_concat

theorem metaPath_length (p : Path) : (metaPath p).length = p.dropLast.length + 1 := by
  unfold metaPath
  simp

theorem metaPath_ne (p : Path) (hp : p ≠ []) : metaPath p ≠ p := by
  intro h
  have h1 : (metaPath p).getLast? = some (p.getLastD [] ++ ".metadata".data) := by
    unfold metaPath
    simp [List.getLast?_concat]
  rw [h] at h1
  have h2 : p.getLast? = some (p.getLastD []) := by
    cases p with
    | nil => exact absurd rfl hp
    | cons x xs => simp [List.getLastD_eq_getLast?, List.getLast?_cons]
  rw [h2] at h1
  have h3 := Option.some.inj h1
  have := congrArg List.length h3
  simp [List.length_append] at this

theorem dropLast_concat_getLastD (p : Path) (hp : p ≠ []) :
    p.dropLast ++ [p.getLastD []] = p := by
  have e1 : p.getLastD [] = p.getLast hp := by
    rw [List.getLastD_eq_getLast?, List.getLast?_eq_getLast _ hp]
    rfl
  rw [e1]
  exact List.dropLast_append_getLast hp

theorem metaPath_inj (p q : Path) (h : metaPath p = metaPath q)
    (hp : p ≠ []) (hq : q ≠ []) : p = q := by
  unfold metaPath at h
  have hlen : p.dropLast.length = q.dropLast.length := by
    have hlc := congrArg List.length h
    simp only [List.length_append, List.length_cons, List.length_nil] at hlc
    omega
  obtain ⟨h1, h2⟩ := List.append_inj h hlen
  have h3 : p.getLastD [] ++ ".metadata".data = q.getLastD [] ++ ".metadata".data := by
    simpa using h2
  have h4 : p.getLastD [] = q.getLastD [] := by
    have hl2 : (p.getLastD []).length = (q.getLastD []).length := by
      have hlc := congrArg List.length h3
      simp only [List.length_append] at hlc
      omega
    exact (List.append_inj h3 hl2).1
  rw [← dropLast_concat_getLastD p hp, ← dropLast_concat_getLastD q hq, h1, h4]

theorem find?_filter_key (l : List (Path × FileData)) (keep : Path → Bool) (r : Path) :
    (l.filter (fun q => keep q.1)).find? (fun q => q.1 == r) =
      if keep r then l.find? (fun q => q.1 == r) else none := by
  induction l with
  | nil => simp
  | cons qe rest ih =>
    obtain ⟨q, e⟩ := qe
    by_cases hqr : q = r
    · subst hqr
      by_cases hk : keep q
      · rw [if_pos hk]
        rw [List.filter_cons_of_pos (by simpa using hk)]
        rw [List.find?_cons_of_pos _ (by simp), List.find?_cons_of_pos _ (by simp)]
      · rw [if_neg hk]
        rw [List.filter_cons_of_neg (by simpa using hk)]
        rw [ih, if_neg hk]
    · by_cases hk : keep q
      · rw [List.filter_cons_of_pos (by simpa using hk)]
        rw [List.find?_cons_of_neg _ (by simp [hqr]), ih]
        by_cases hr : keep r
        · rw [if_pos hr, if_pos hr, List.find?_cons_of_neg _ (by simp [hqr])]
        · rw [if_neg hr, if_neg hr]
      · rw [List.filter_cons_of_neg (by simpa using hk)]
        rw [ih]
        by_cases hr : keep r
        · rw [if_pos hr, if_pos hr, List.find?_cons_of_neg _ (by simp [hqr])]
        · rw [if_neg hr, if_neg hr]

theorem getFile_removeAll (fs : FS) (p q : Path) :
    (fs.removeAll p).getFile q =
      if p.isPrefixOf q then none else fs.getFile q := by
  unfold FS.removeAll FS.getFile
  simp only
  rw [find?_filter_key fs.files (fun r => !(p.isPrefixOf r)) q]
  by_cases hp : p.isPrefixOf q
  · rw [if_pos hp, if_neg (by simp [hp])]
    simp
  · rw [if_neg hp, if_pos (by simp [hp])]

theorem isDir_removeAll (fs : FS) (p q : Path) :
    (fs.removeAll p).isDir q = (!(p.isPrefixOf q) && fs.isDir q) := by
  unfold FS.removeAll FS.isDir
  simp only
  rw [Bool.eq_iff_iff]
  simp only [Bool.and_eq_true]
  constructor
  · intro h
    have hm : q ∈ fs.dirs.filter (fun r => !(p.isPrefixOf r)) := by simpa using h
    have := List.mem_filter.mp hm
    exact ⟨this.2, by simpa using this.1⟩
  · intro ⟨h1, h2⟩
    have hm : q ∈ fs.dirs.filter (fun r => !(p.isPrefixOf r)) :=
      List.mem_filter.mpr ⟨by simpa using h2, h1⟩
    simpa using hm

theorem getFile_dirs_irrel (files : List (Path × FileData)) (ds ds' : List Path) (q : Path) :
    FS.getFile ⟨files, ds⟩ q = FS.getFile ⟨files, ds'⟩ q := rfl

/-- What a successful `PutObject` does to the state: the object file holds
exactly the streamed bytes, the sidecar is written when (and only when)
metadata is non-empty, every other file is untouched, and the only new
directories are the key's ancestors. -/
theorem putObject_ok (fs : FS) (bucket key : Str) (data : Bytes) (sz : Int)
    (md : List (Str × Str)) (now : Nat)
    (hb : bucketExists fs bucket = true)
    (hnf : ∀ q ∈ ancestors ((bucket :: pathOfKey key).dropLast), fs.isFile q = false)
    (hnd : fs.isDir (bucket :: pathOfKey key) = false)
    (hmd : fs.isDir (metaPath (bucket :: pathOfKey key)) = false) :
    ∃ fs' : FS,
      putObject fs bucket key data sz md now =
        (Except.ok ⟨key, data.length, etagOf now, now, getContentType key, md⟩, fs') ∧
      fs'.getFile (bucket :: pathOfKey key) = some ⟨data, now⟩ ∧
      (md ≠ [] →
        fs'.getFile (metaPath (bucket :: pathOfKey key)) =
          some ⟨strBytes (metaContent md), now⟩) ∧
      (md = [] →
        fs'.getFile (metaPath (bucket :: pathOfKey key)) =
          fs.getFile (metaPath (bucket :: pathOfKey key))) ∧
      (∀ q : Path, q ≠ bucket :: pathOfKey key → q ≠ metaPath (bucket :: pathOfKey key) →
        fs'.getFile q = fs.getFile q) ∧
      (∀ q : Path, fs'.isDir q =
        (fs.isDir q || (ancestors (bucket :: pathOfKey key).dropLast).contains q)) := by
  have hkeynil := pathOfKey_ne_nil key
  have hplen : (bucket :: pathOfKey key).length = (pathOfKey key).length + 1 := by simp
  have hpplen : (bucket :: pathOfKey key).dropLast.length = (pathOfKey key).length := by
    rw [List.length_dropLast, hplen]
    omega
  have hkpos : 0 < (pathOfKey key).length := List.length_pos.mpr hkeynil
  have hppne : (bucket :: pathOfKey key).dropLast ≠ [] := by
    intro h
    rw [h] at hpplen
    simp at hpplen
    omega
  have hppltp : (bucket :: pathOfKey key).dropLast.length < (bucket :: pathOfKey key).length := by
    rw [hpplen, hplen]
    omega
  have hpne : (bucket :: pathOfKey key) ≠ ([] : Path) := by simp
  -- step 1: MkdirAll on the parent directory
  have hmk := mkdirAll_ok fs (bucket :: pathOfKey key).dropLast hnf
  have hisdir1 : ∀ q, FS.isDir ⟨fs.files, fs.dirs ++
      (ancestors (bucket :: pathOfKey key).dropLast).filter
        (fun r => !(fs.dirs.contains r))⟩ q =
      (fs.isDir q || (ancestors (bucket :: pathOfKey key).dropLast).contains q) := by
    intro q
    exact isDir_mkdirs fs.files fs.dirs (bucket :: pathOfKey key).dropLast q
  have hnd1 : FS.isDir ⟨fs.files, fs.dirs ++
      (ancestors (bucket :: pathOfKey key).dropLast).filter
        (fun r => !(fs.dirs.contains r))⟩ (bucket :: pathOfKey key) = false := by
    rw [hisdir1, hnd,
      ancestors_contains_longer (bucket :: pathOfKey key).dropLast _ hppltp]
    rfl
  have hppdir1 : FS.isDir ⟨fs.files, fs.dirs ++
      (ancestors (bucket :: pathOfKey key).dropLast).filter
        (fun r => !(fs.dirs.contains r))⟩ (bucket :: pathOfKey key).dropLast = true := by
    rw [hisdir1]
    have hm : (bucket :: pathOfKey key).dropLast ∈
        ancestors (bucket :: pathOfKey key).dropLast :=
      ancestors_self_mem _ hppne
    have hc : (ancestors (bucket :: pathOfKey key).dropLast).contains
        (bucket :: pathOfKey key).dropLast = true := by simpa using hm
    rw [hc, Bool.or_true]
  -- step 2: Create + write the object file
  have hcr := createFile_ok
    ⟨fs.files, fs.dirs ++ (ancestors (bucket :: pathOfKey key).dropLast).filter
      (fun r => !(fs.dirs.contains r))⟩
    (bucket :: pathOfKey key) now hnd1 (Or.inr hppdir1)
  have hget2p : FS.getFile
      ⟨setFile fs.files (bucket :: pathOfKey key) ⟨[], now⟩,
       fs.dirs ++ (ancestors (bucket :: pathOfKey key).dropLast).filter
         (fun r => !(fs.dirs.contains r))⟩ (bucket :: pathOfKey key) = some ⟨[], now⟩ :=
    getFile_mk_self _ _ _ _
  have happ := appendFile_of_get
    ⟨setFile fs.files (bucket :: pathOfKey key) ⟨[], now⟩,
     fs.dirs ++ (ancestors (bucket :: pathOfKey key).dropLast).filter
       (fun r => !(fs.dirs.contains r))⟩
    (bucket :: pathOfKey key) data ⟨[], now⟩ hget2p
  rw [List.nil_append] at happ
  -- facts about the post-append state fs3
  have hget3p : FS.getFile
      ⟨setFile (setFile fs.files (bucket :: pathOfKey key) ⟨[], now⟩)
         (bucket :: pathOfKey key) ⟨data, now⟩,
       fs.dirs ++ (ancestors (bucket :: pathOfKey key).dropLast).filter
         (fun r => !(fs.dirs.contains r))⟩ (bucket :: pathOfKey key) = some ⟨data, now⟩ :=
    getFile_mk_self _ _ _ _
  have hframe3 : ∀ q : Path, q ≠ bucket :: pathOfKey key →
      FS.getFile
        ⟨setFile (setFile fs.files (bucket :: pathOfKey key) ⟨[], now⟩)
           (bucket :: pathOfKey key) ⟨data, now⟩,
         fs.dirs ++ (ancestors (bucket :: pathOfKey key).dropLast).filter
           (fun r => !(fs.dirs.contains r))⟩ q = fs.getFile q := by
    intro q hq
    rw [getFile_mk_other _ _ _ _ _ hq, getFile_mk_other _ _ _ _ _ hq]
    exact getFile_dirs_irrel fs.files _ fs.dirs q
  have hmetane : metaPath (bucket :: pathOfKey key) ≠ bucket :: pathOfKey key :=
    metaPath_ne _ hpne
  -- the putObject computation, up to the metadata write
  have hput0 : putObject fs bucket key data sz md now =
      (Except.ok ⟨key, data.length, etagOf now, now, getContentType key, md⟩,
       if md ≠ [] then
         storeMetadata
           ⟨setFile (setFile fs.files (bucket :: pathOfKey key) ⟨[], now⟩)
              (bucket :: pathOfKey key) ⟨data, now⟩,
            fs.dirs ++ (ancestors (bucket :: pathOfKey key).dropLast).filter
              (fun r => !(fs.dirs.contains r))⟩
           (bucket :: pathOfKey key) md now
       else
         ⟨setFile (setFile fs.files (bucket :: pathOfKey key) ⟨[], now⟩)
            (bucket :: pathOfKey key) ⟨data, now⟩,
          fs.dirs ++ (ancestors (bucket :: pathOfKey key).dropLast).filter
            (fun r => !(fs.dirs.contains r))⟩) := by
    simp only [putObject, hb, not_true, if_false, Bool.not_true, ite_false, ite_true,
      not_true_eq_false]
    rw [hmk]
    simp only []
    rw [hcr]
    simp only []
    rw [happ]
  by_cases hmdnil : md = []
  · subst hmdnil
    rw [if_neg (by simp)] at hput0
    refine ⟨_, hput0, hget3p, by simp, fun _ => hframe3 _ hmetane,
      fun q hq _ => hframe3 q hq, ?_⟩
    intro q
    exact hisdir1 q
  · rw [if_pos hmdnil] at hput0
    -- step 3: the sidecar write
    have hnd3meta : FS.isDir
        ⟨setFile (setFile fs.files (bucket :: pathOfKey key) ⟨[], now⟩)
           (bucket :: pathOfKey key) ⟨data, now⟩,
         fs.dirs ++ (ancestors (bucket :: pathOfKey key).dropLast).filter
           (fun r => !(fs.dirs.contains r))⟩ (metaPath (bucket :: pathOfKey key)) = false := by
      rw [isDir_mkdirs,
        ancestors_contains_longer _ _ (by rw [metaPath_length]; omega), Bool.or_false]
      exact hmd
    have hdir3pp : FS.isDir
        ⟨setFile (setFile fs.files (bucket :: pathOfKey key) ⟨[], now⟩)
           (bucket :: pathOfKey key) ⟨data, now⟩,
         fs.dirs ++ (ancestors (bucket :: pathOfKey key).dropLast).filter
           (fun r => !(fs.dirs.contains r))⟩ (metaPath (bucket :: pathOfKey key)).dropLast =
        true := by
      rw [metaPath_dropLast]
      rw [isDir_mkdirs]
      have hm : (bucket :: pathOfKey key).dropLast ∈
          ancestors (bucket :: pathOfKey key).dropLast := ancestors_self_mem _ hppne
      have hc : (ancestors (bucket :: pathOfKey key).dropLast).contains
          (bucket :: pathOfKey key).dropLast = true := by simpa using hm
      rw [hc, Bool.or_true]
    have hcrm := createFile_ok
      ⟨setFile (setFile fs.files (bucket :: pathOfKey key) ⟨[], now⟩)
         (bucket :: pathOfKey key) ⟨data, now⟩,
       fs.dirs ++ (ancestors (bucket :: pathOfKey key).dropLast).filter
         (fun r => !(fs.dirs.contains r))⟩
      (metaPath (bucket :: pathOfKey key)) now hnd3meta (Or.inr hdir3pp)
    have hget4m : FS.getFile
        ⟨setFile (setFile (setFile fs.files (bucket :: pathOfKey key) ⟨[], now⟩)
            (bucket :: pathOfKey key) ⟨data, now⟩)
           (metaPath (bucket :: pathOfKey key)) ⟨[], now⟩,
         fs.dirs ++ (ancestors (bucket :: pathOfKey key).dropLast).filter
           (fun r => !(fs.dirs.contains r))⟩ (metaPath (bucket :: pathOfKey key)) =
        some ⟨[], now⟩ := getFile_mk_self _ _ _ _
    have happm := appendFile_of_get
      ⟨setFile (setFile (setFile fs.files (bucket :: pathOfKey key) ⟨[], now⟩)
          (bucket :: pathOfKey key) ⟨data, now⟩)
         (metaPath (bucket :: pathOfKey key)) ⟨[], now⟩,
       fs.dirs ++ (ancestors (bucket :: pathOfKey key).dropLast).filter
         (fun r => !(fs.dirs.contains r))⟩
      (metaPath (bucket :: pathOfKey key)) (strBytes (metaContent md)) ⟨[], now⟩ hget4m
    rw [List.nil_append] at happm
    have hsm : storeMetadata
        ⟨setFile (setFile fs.files (bucket :: pathOfKey key) ⟨[], now⟩)
           (bucket :: pathOfKey key) ⟨data, now⟩,
         fs.dirs ++ (ancestors (bucket :: pathOfKey key).dropLast).filter
           (fun r => !(fs.dirs.contains r))⟩ (bucket :: pathOfKey key) md now =
        ⟨setFile (setFile (setFile (setFile fs.files (bucket :: pathOfKey key) ⟨[], now⟩)
              (bucket :: pathOfKey key) ⟨data, now⟩)
             (metaPath (bucket :: pathOfKey key)) ⟨[], now⟩)
           (metaPath (bucket :: pathOfKey key)) ⟨strBytes (metaContent md), now⟩,
         fs.dirs ++ (ancestors (bucket :: pathOfKey key).dropLast).filter
           (fun r => !(fs.dirs.contains r))⟩ := by
      simp only [storeMetadata]
      rw [if_neg hmdnil, hcrm]
      simp only []
      rw [happm]
    rw [hsm] at hput0
    refine ⟨_, hput0, ?_, ?_, by intro h; exact absurd h hmdnil, ?_, ?_⟩
    · rw [getFile_mk_other _ _ _ _ _ (Ne.symm hmetane),
        getFile_mk_other _ _ _ _ _ (Ne.symm hmetane)]
      exact hget3p
    · intro _
      exact getFile_mk_self _ _ _ _
    · intro q hq hqm
      rw [getFile_mk_other _ _ _ _ _ hqm, getFile_mk_other _ _ _ _ _ hqm]
      exact hframe3 q hq
    · intro q
      exact hisdir1 q

/-! ## Helper lemmas: UTF-8 round trip. -/

theorem char_toNat_lt (c : Char) : c.toNat < 1114112 := by
  have hv := c.valid
  unfold UInt32.isValidChar Nat.isValidChar at hv
  rcases hv with h1 | ⟨h2, h3⟩ <;> · show c.val.toNat < 1114112; omega

theorem utf8DecodeAux_strBytes : ∀ (s : Str) (r : Bytes) (f : Nat),
    s.length + r.length ≤ f →
    utf8DecodeAux f (strBytes s ++ r) = s ++ utf8DecodeAux (f - s.length) r := by
  intro s
  induction s with
  | nil =>
    intro r f _
    simp [strBytes]
  | cons c s' ih =>
    intro r f h
    simp only [List.length_cons] at h
    obtain ⟨f', rfl⟩ : ∃ f', f = f' + 1 := ⟨f - 1, by omega⟩
    have hfr : f' + 1 - (c :: s').length = f' - s'.length := by simp
    rw [hfr]
    have hsb : strBytes (c :: s') = utf8Char c ++ strBytes s' := by
      simp [strBytes]
    rw [hsb, List.append_assoc]
    have hih := ih r f' (by omega)
    have hv := char_toNat_lt c
    by_cases h1 : c.toNat < 128
    · have he : utf8Char c = [c.toNat] := by simp [utf8Char, h1]
      rw [he]
      simp only [List.cons_append, List.nil_append, utf8DecodeAux, if_pos h1,
        List.append_eq, List.nil_append]
      rw [Char.ofNat_toNat, hih]
    · by_cases h2 : c.toNat < 2048
      · have he : utf8Char c = [192 + c.toNat / 64, 128 + c.toNat % 64] := by
          simp only [utf8Char, if_neg h1, if_pos h2]
        rw [he]
        simp only [List.cons_append, List.nil_append, utf8DecodeAux,
          if_neg (by omega : ¬ (192 + c.toNat / 64 < 128)),
          if_pos (by omega : 192 + c.toNat / 64 < 224)]
        simp only [List.append_eq, List.cons_append, List.nil_append]
        have harith : (192 + c.toNat / 64 - 192) * 64 + (128 + c.toNat % 64 - 128) =
            c.toNat := by omega
        rw [harith, Char.ofNat_toNat, hih]
      · by_cases h3 : c.toNat < 65536
        · have he : utf8Char c =
              [224 + c.toNat / 4096, 128 + (c.toNat / 64) % 64, 128 + c.toNat % 64] := by
            simp only [utf8Char, if_neg h1, if_neg h2, if_pos h3]
          rw [he]
          simp only [List.cons_append, List.nil_append, utf8DecodeAux,
            if_neg (by omega : ¬ (224 + c.toNat / 4096 < 128)),
            if_neg (by omega : ¬ (224 + c.toNat / 4096 < 224)),
            if_pos (by omega : 224 + c.toNat / 4096 < 240)]
          simp only [List.append_eq, List.cons_append, List.nil_append]
          have e2 : c.toNat / 4096 = c.toNat / 64 / 64 := by
            rw [Nat.div_div_eq_div_mul]
          have harith : (224 + c.toNat / 4096 - 224) * 4096 +
              (128 + (c.toNat / 64) % 64 - 128) * 64 + (128 + c.toNat % 64 - 128) =
              c.toNat := by
            rw [e2]
            omega
          rw [harith, Char.ofNat_toNat, hih]
        · have he : utf8Char c =
              [240 + c.toNat / 262144, 128 + (c.toNat / 4096) % 64,
               128 + (c.toNat / 64) % 64, 128 + c.toNat % 64] := by
            simp only [utf8Char, if_neg h1, if_neg h2, if_neg h3]
          rw [he]
          simp only [List.cons_append, List.nil_append, utf8DecodeAux,
            if_neg (by omega : ¬ (240 + c.toNat / 262144 < 128)),
            if_neg (by omega : ¬ (240 + c.toNat / 262144 < 224)),
            if_neg (by omega : ¬ (240 + c.toNat / 262144 < 240))]
          simp only [List.append_eq, List.cons_append, List.nil_append]
          have e1 : c.toNat / 262144 = c.toNat / 64 / 64 / 64 := by
            rw [Nat.div_div_eq_div_mul, Nat.div_div_eq_div_mul]
          have e2 : c.toNat / 4096 = c.toNat / 64 / 64 := by
            rw [Nat.div_div_eq_div_mul]
          have harith : (240 + c.toNat / 262144 - 240) * 262144 +
              (128 + (c.toNat / 4096) % 64 - 128) * 4096 +
              (128 + (c.toNat / 64) % 64 - 128) * 64 + (128 + c.toNat % 64 - 128) =
              c.toNat := by
            rw [e1, e2]
            omega
          rw [harith, Char.ofNat_toNat, hih]

theorem utf8DecodeAux_nil (f : Nat) : utf8DecodeAux f [] = [] := by
  cases f with
  | zero => rfl
  | succ f => rfl

theorem strBytes_length_ge (s : Str) : s.length ≤ (strBytes s).length := by
  induction s with
  | nil => simp [strBytes]
  | cons c s' ih =>
    have h : 1 ≤ (utf8Char c).length := by
      unfold utf8Char
      by_cases h1 : c.toNat < 128
      · simp [h1]
      · by_cases h2 : c.toNat < 2048
        · simp [h1, h2]
        · by_cases h3 : c.toNat < 65536
          · simp [h1, h2, h3]
          · simp [h1, h2, h3]
    have hsb : strBytes (c :: s') = utf8Char c ++ strBytes s' := by simp [strBytes]
    rw [hsb]
    simp only [List.length_cons, List.length_append]
    omega

/-- Decoding inverts encoding: Go reads back the exact string it wrote. -/
theorem utf8Decode_strBytes (s : Str) : utf8Decode (strBytes s) = s := by
  unfold utf8Decode
  have h := utf8DecodeAux_strBytes s [] (strBytes s).length
    (by simpa using strBytes_length_ge s)
  rw [List.append_nil] at h
  rw [h, utf8DecodeAux_nil, List.append_nil]

/-! ## Helper lemmas: sidecar serialization round trip. -/

theorem goTrimSpace_eq_self (s : Str)
    (h1 : ∀ c, s.head? = some c → goIsSpace c = false)
    (h2 : ∀ c, s.getLast? = some c → goIsSpace c = false) :
    goTrimSpace s = s := by
  unfold goTrimSpace
  have hd : s.dropWhile goIsSpace = s := by
    cases s with
    | nil => rfl
    | cons c t =>
      rw [List.dropWhile_cons, if_neg (by simp [h1 c rfl])]
  rw [hd]
  have hrev : s.reverse.dropWhile goIsSpace = s.reverse := by
    cases hr : s.reverse with
    | nil => rfl
    | cons c t =>
      have hlast : s.getLast? = some c := by
        rw [← List.head?_reverse, hr]
        rfl
      rw [List.dropWhile_cons, if_neg (by simp [h2 c hlast])]
  rw [hrev, List.reverse_reverse]

theorem mapSet_append (m : List (Str × Str)) (k : Str) (v : Str)
    (h : ∀ p ∈ m, p.1 ≠ k) : mapSet m k v = m ++ [(k, v)] := by
  induction m with
  | nil => rfl
  | cons q rest ih =>
    obtain ⟨k', v'⟩ := q
    have hk : k' ≠ k := h (k', v') (by simp)
    simp only [mapSet, if_neg hk, List.cons_append]
    rw [ih (fun p hp => h p (by simp [hp]))]

theorem trim_entry (k v : Str) (hok : mdEntryOk k v) :
    goTrimSpace (k ++ '=' :: v) = k ++ '=' :: v := by
  obtain ⟨_, _, _, hk, hv⟩ := hok
  apply goTrimSpace_eq_self
  · intro c hc
    cases k with
    | nil =>
      have h1 : (([] : Str) ++ '=' :: v).head? = some '=' := rfl
      rw [h1] at hc
      rw [← Option.some.inj hc]
      decide
    | cons a t =>
      have h1 : ((a :: t) ++ '=' :: v).head? = some a := rfl
      rw [h1] at hc
      rw [← Option.some.inj hc]
      simpa using hk
  · intro c hc
    cases v with
    | nil =>
      have h1 : (k ++ '=' :: []).getLast? = some '=' := List.getLast?_concat _
      rw [h1] at hc
      rw [← Option.some.inj hc]
      decide
    | cons b t =>
      have h1 : (k ++ '=' :: b :: t).getLast? = ('=' :: b :: t).getLast? :=
        List.getLast?_append_of_ne_nil _ (by simp)
      rw [h1, List.getLast?_cons_cons] at hc
      rw [hc] at hv
      simpa using hv

theorem mdLineStep_entry (m : List (Str × Str)) (k v : Str) (hok : mdEntryOk k v) :
    mdLineStep m (k ++ '=' :: v) = mapSet m k v := by
  simp only [mdLineStep]
  rw [trim_entry k v hok]
  rw [if_neg (by simp)]
  have hconv : ("=".data : Str) = '=' :: [] := rfl
  have h2 := splitFirst_append_norm '=' [] k v hok.2.2.1
  rw [List.nil_append] at h2
  have hsp : splitN2 (k ++ '=' :: v) "=".data = [k, v] := by
    unfold splitN2
    rw [hconv, h2]
  rw [hsp]

theorem goSplit_metaContent : ∀ md : List (Str × Str),
    (∀ p ∈ md, '\n' ∉ p.1 ∧ '\n' ∉ p.2) →
    goSplit (metaContent md) "\n".data =
      (md.map (fun p : Str × Str => p.1 ++ '=' :: p.2)) ++ [[]] := by
  intro md
  induction md with
  | nil =>
    intro _
    have h := goSplit_single '\n' [] [] (by simp)
    rw [show ("\n".data : Str) = '\n' :: [] from rfl]
    simpa [metaContent] using h
  | cons kv md' ih =>
    obtain ⟨k, v⟩ := kv
    intro h
    have hk := h (k, v) (by simp)
    have hshape : metaContent ((k, v) :: md') =
        (k ++ '=' :: v) ++ ('\n' :: []) ++ metaContent md' := by
      simp [metaContent, List.append_assoc]
    rw [show ("\n".data : Str) = '\n' :: [] from rfl] at ih ⊢
    rw [hshape]
    rw [goSplit_append '\n' [] (k ++ '=' :: v) (metaContent md') ?hnl]
    case hnl =>
      simp only [List.mem_append, List.mem_cons]
      push_neg
      exact ⟨hk.1, by decide, hk.2⟩
    rw [ih (fun p hp => h p (by simp [hp]))]
    simp

theorem foldl_mdLineStep : ∀ (md : List (Str × Str)) (m : List (Str × Str)),
    (∀ p ∈ md, mdEntryOk p.1 p.2) →
    (md.map (fun p => p.1)).Nodup →
    (∀ p ∈ md, p.1 ∉ m.map (fun q => q.1)) →
    ((md.map (fun p : Str × Str => p.1 ++ '=' :: p.2)) ++ [[]]).foldl mdLineStep m =
      m ++ md := by
  intro md
  induction md with
  | nil =>
    intro m _ _ _
    simp only [List.map_nil, List.nil_append, List.foldl_cons, List.foldl_nil]
    rw [show mdLineStep m [] = m from rfl]
    simp
  | cons kv md' ih =>
    obtain ⟨k, v⟩ := kv
    intro m hok hnd hdisj
    simp only [List.map_cons] at hnd
    simp only [List.map_cons, List.cons_append, List.foldl_cons]
    rw [mdLineStep_entry m k v (hok (k, v) (by simp))]
    rw [mapSet_append m k v ?hknotin]
    case hknotin =>
      intro p hp he
      exact hdisj (k, v) (by simp) (by rw [← he]; exact List.mem_map.mpr ⟨p, hp, rfl⟩)
    rw [ih (m ++ [(k, v)]) (fun p hp => hok p (by simp [hp]))
      (List.nodup_cons.mp hnd).2 ?hdisj']
    · simp
    case hdisj' =>
      intro p hp hmem
      rw [List.map_append] at hmem
      rcases List.mem_append.mp hmem with h1 | h1
      · exact hdisj p (by simp [hp]) h1
      · have hpk : p.1 = k := by simpa using h1
        exact (List.nodup_cons.mp hnd).1 (List.mem_map.mpr ⟨p, hp, hpk⟩)

/-- Parsing the sidecar written for a well-formed metadata map returns
exactly that map. -/
theorem loadMetadata_of_sidecar (fs : FS) (p : Path) (md : List (Str × Str))
    (hok : mdOk md)
    (hget : fs.readFile (metaPath p) = some (strBytes (metaContent md))) :
    loadMetadata fs p = md := by
  unfold loadMetadata
  rw [hget]
  show (goSplit (utf8Decode (strBytes (metaContent md))) "\n".data).foldl mdLineStep [] = md
  rw [utf8Decode_strBytes]
  rw [goSplit_metaContent md (fun q hq => ⟨(hok.2 q hq).1, (hok.2 q hq).2.1⟩)]
  rw [foldl_mdLineStep md [] hok.2 hok.1 (by simp)]
  simp

/-! ## Claims (storage frame property). -/

/-- Claim C10, counterexample: putting at key `x.metadata` changes the
metadata observable via `getObject(b, "x")` although `"x"` differs from both
the put key and the put key plus `".metadata"`. -/
theorem C10_frame_counterexample :
    ("x".data : Str) ≠ "x.metadata".data ∧
    ("x".data : Str) ≠ "x.metadata".data ++ ".metadata".data ∧
    ((getObject (⟨[(["b".data, "x".data], ⟨[1], 5⟩)], [["b".data]]⟩ : FS)
        "b".data "x".data).toOption.map (fun r => r.2.metadata)) = some [] ∧
    ((getObject (putObject ⟨[(["b".data, "x".data], ⟨[1], 5⟩)], [["b".data]]⟩
        "b".data "x.metadata".data (strBytes "a=bb\n".data) 5 [] 50).2
        "b".data "x".data).toOption.map (fun r => r.2.metadata)) =
      some [("a".data, "bb".data)] := by
  refine ⟨by decide, by decide, by decide, by decide⟩

/-- Claim C10 (amended): a successful `putObject(b, k, …)` modifies at most
the two paths of `k` and `k + ".metadata"`: `getObject(b, k')` is entirely
unchanged for every key `k'` whose path differs from the put key's path,
whose path is not the put key's sidecar path, whose own sidecar path is not
the put key's path, and whose path is not a directory newly created for the
put key; conversely, when the metadata map is non-empty the sidecar write
overwrites whatever file (e.g. an object stored under the key
`k + ".metadata"`) lived at the sidecar path. -/
theorem C10_put_frame (fs : FS) (bucket key key' : Str) (data : Bytes) (sz : Int)
    (md : List (Str × Str)) (now : Nat)
    (hb : bucketExists fs bucket = true)
    (hnf : ∀ q ∈ ancestors ((bucket :: pathOfKey key).dropLast), fs.isFile q = false)
    (hnd : fs.isDir (bucket :: pathOfKey key) = false)
    (hmdd : fs.isDir (metaPath (bucket :: pathOfKey key)) = false)
    (h1 : pathOfKey key' ≠ pathOfKey key)
    (h2 : bucket :: pathOfKey key' ≠ metaPath (bucket :: pathOfKey key))
    (h3 : metaPath (bucket :: pathOfKey key') ≠ bucket :: pathOfKey key)
    (h5 : (ancestors ((bucket :: pathOfKey key).dropLast)).contains
      (bucket :: pathOfKey key') = false) :
    getObject (putObject fs bucket key data sz md now).2 bucket key' =
      getObject fs bucket key' ∧
    (md ≠ [] →
      ((putObject fs bucket key data sz md now).2).getFile
        (metaPath (bucket :: pathOfKey key)) = some ⟨strBytes (metaContent md), now⟩) := by
  obtain ⟨fs', hput, hobj, hmeta1, hmeta0, hframe, hdirs⟩ :=
    putObject_ok fs bucket key data sz md now hb hnf hnd hmdd
  rw [hput]
  have hpne' : bucket :: pathOfKey key' ≠ bucket :: pathOfKey key := by
    intro hcontra
    exact h1 (List.cons.inj hcontra).2
  have hmne : metaPath (bucket :: pathOfKey key') ≠ metaPath (bucket :: pathOfKey key) := by
    intro hcontra
    exact hpne' (metaPath_inj _ _ hcontra (by simp) (by simp))
  have hfile' : fs'.getFile (bucket :: pathOfKey key') =
      fs.getFile (bucket :: pathOfKey key') := hframe _ hpne' h2
  have hmfile' : fs'.getFile (metaPath (bucket :: pathOfKey key')) =
      fs.getFile (metaPath (bucket :: pathOfKey key')) := hframe _ h3 hmne
  have hdir' : fs'.isDir (bucket :: pathOfKey key') =
      fs.isDir (bucket :: pathOfKey key') := by
    rw [hdirs, h5, Bool.or_false]
  have hb' : bucketExists fs' bucket = true := by
    unfold bucketExists at hb ⊢
    rw [hdirs [bucket], hb]
    rfl
  have hload : loadMetadata fs' (bucket :: pathOfKey key') =
      loadMetadata fs (bucket :: pathOfKey key') := by
    unfold loadMetadata FS.readFile
    rw [hmfile']
  constructor
  · show getObject fs' bucket key' = getObject fs bucket key'
    simp only [getObject]
    rw [if_neg (show ¬ ¬ (bucketExists fs' bucket = true) from by simp [hb']),
      if_neg (show ¬ ¬ (bucketExists fs bucket = true) from by simp [hb])]
    rw [hfile']
    cases hg : fs.getFile (bucket :: pathOfKey key') with
    | some d =>
      simp only []
      rw [hload]
    | none =>
      simp only []
      rw [hdir']
  · intro hmd
    show fs'.getFile (metaPath (bucket :: pathOfKey key)) = _
    exact hmeta1 hmd

/-- Witness for C10: concrete frame instance — putting `k` with metadata
leaves `getObject` of the unrelated key `other` unchanged, and the sidecar
file holds the serialized metadata. -/
theorem C10_put_frame_witness :
    getObject (putObject ⟨[(["b".data, "other".data], ⟨[7], 3⟩)], [["b".data]]⟩
        "b".data "k".data (strBytes "zz".data) 2 [("x-amz-meta-m".data, "1".data)] 9).2
      "b".data "other".data =
      getObject ⟨[(["b".data, "other".data], ⟨[7], 3⟩)], [["b".data]]⟩
        "b".data "other".data ∧
    ([("x-amz-meta-m".data, "1".data)] ≠ ([] : List (Str × Str)) →
      ((putObject ⟨[(["b".data, "other".data], ⟨[7], 3⟩)], [["b".data]]⟩
          "b".data "k".data (strBytes "zz".data) 2
          [("x-amz-meta-m".data, "1".data)] 9).2).getFile
        (metaPath ("b".data :: pathOfKey "k".data)) =
        some ⟨strBytes (metaContent [("x-amz-meta-m".data, "1".data)]), 9⟩) :=
  C10_put_frame ⟨[(["b".data, "other".data], ⟨[7], 3⟩)], [["b".data]]⟩
    "b".data "k".data "other".data (strBytes "zz".data) 2
    [("x-amz-meta-m".data, "1".data)] 9
    (by decide) (by decide) (by decide) (by decide) (by decide) (by decide) (by decide)
    (by decide)

/-! ## Helper lemmas: multipart concatenation loop. -/

theorem copyParts_ok (bucket uploadID : Str) (objectPath : Path) :
    ∀ (parts : List CompletePart) (fs : FS) (total : Nat) (cur : FileData),
    fs.getFile objectPath = some cur →
    (∀ pt ∈ parts, (fs.getFile (partPathOf bucket uploadID pt)).isSome = true) →
    (∀ pt ∈ parts, objectPath ≠ partPathOf bucket uploadID pt) →
    ∃ fs' : FS,
      copyParts (uploadDirOf bucket uploadID) objectPath fs parts total =
        (Except.ok (total + ((partContents fs bucket uploadID parts).map List.length).sum),
         fs') ∧
      fs'.getFile objectPath =
        some ⟨cur.content ++ (partContents fs bucket uploadID parts).flatten, cur.mtime⟩ ∧
      (∀ q : Path, q ≠ objectPath → fs'.getFile q = fs.getFile q) ∧
      fs'.dirs = fs.dirs := by
  intro parts
  induction parts with
  | nil =>
    intro fs total cur hcur _ _
    refine ⟨fs, ?_, ?_, fun q _ => rfl, rfl⟩
    · show (Except.ok total, fs) = _
      simp [partContents]
    · rw [show (partContents fs bucket uploadID []).flatten = [] from rfl, List.append_nil]
      exact hcur
  | cons pt rest ih =>
    intro fs total cur hcur hparts hne
    obtain ⟨d, hd⟩ := Option.isSome_iff_exists.mp (hparts pt (by simp))
    have hd' : fs.getFile (uploadDirOf bucket uploadID ++ [partFileName pt.partNumber]) =
        some d := hd
    have hstep0 : copyParts (uploadDirOf bucket uploadID) objectPath fs (pt :: rest) total =
        match fs.getFile (uploadDirOf bucket uploadID ++ [partFileName pt.partNumber]) with
        | none => (Except.error "no such file or directory".data, fs)
        | some d =>
          copyParts (uploadDirOf bucket uploadID) objectPath
            (fs.appendFile objectPath d.content) rest (total + d.content.length) := rfl
    rw [hd'] at hstep0
    have hstep : copyParts (uploadDirOf bucket uploadID) objectPath fs (pt :: rest) total =
        copyParts (uploadDirOf bucket uploadID) objectPath
          (fs.appendFile objectPath d.content) rest (total + d.content.length) := by
      rw [hstep0]
    have happ := appendFile_of_get fs objectPath d.content cur hcur
    have hcur1 : (fs.appendFile objectPath d.content).getFile objectPath =
        some ⟨cur.content ++ d.content, cur.mtime⟩ := by
      rw [happ]
      exact getFile_mk_self _ _ _ _
    have hframe1 : ∀ q : Path, q ≠ objectPath →
        (fs.appendFile objectPath d.content).getFile q = fs.getFile q := by
      intro q hq
      rw [happ]
      exact getFile_mk_other _ _ _ _ _ hq
    have hdirs1 : (fs.appendFile objectPath d.content).dirs = fs.dirs := by
      rw [happ]
    have hparts1 : ∀ pt' ∈ rest,
        ((fs.appendFile objectPath d.content).getFile
          (partPathOf bucket uploadID pt')).isSome = true := by
      intro pt' hpt'
      rw [hframe1 _ (Ne.symm (hne pt' (by simp [hpt'])))]
      exact hparts pt' (by simp [hpt'])
    have hpc : partContents (fs.appendFile objectPath d.content) bucket uploadID rest =
        partContents fs bucket uploadID rest := by
      unfold partContents
      apply List.map_congr_left
      intro pt' hpt'
      rw [hframe1 _ (Ne.symm (hne pt' (by simp [hpt'])))]
    have hS : partContents fs bucket uploadID (pt :: rest) =
        d.content :: partContents fs bucket uploadID rest := by
      simp [partContents, partPathOf, hd']
    obtain ⟨fs', hrec, hobj', hframe', hdirs'⟩ := ih (fs.appendFile objectPath d.content)
      (total + d.content.length) ⟨cur.content ++ d.content, cur.mtime⟩ hcur1 hparts1
      (fun pt' h' => hne pt' (by simp [h']))
    have harith : total + d.content.length +
        ((partContents (fs.appendFile objectPath d.content) bucket uploadID rest).map
          List.length).sum =
        total + ((partContents fs bucket uploadID (pt :: rest)).map List.length).sum := by
      rw [hpc, hS]
      simp only [List.map_cons, List.sum_cons]
      omega
    refine ⟨fs', ?_, ?_, ?_, ?_⟩
    · rw [hstep, hrec, harith]
    · rw [hobj']
      have hcontent : (cur.content ++ d.content) ++
          (partContents (fs.appendFile objectPath d.content) bucket uploadID rest).flatten =
          cur.content ++ (partContents fs bucket uploadID (pt :: rest)).flatten := by
        rw [hpc, hS]
        simp [List.append_assoc]
      rw [← hcontent]
    · intro q hq
      rw [hframe' q hq, hframe1 q hq]
    · rw [hdirs', hdirs1]

theorem copyParts_missing (bucket uploadID : Str) (objectPath : Path) :
    ∀ (done : List CompletePart) (miss : CompletePart) (rest : List CompletePart)
      (fs : FS) (total : Nat) (cur : FileData),
    fs.getFile objectPath = some cur →
    (∀ pt ∈ done, (fs.getFile (partPathOf bucket uploadID pt)).isSome = true) →
    (∀ pt ∈ done, objectPath ≠ partPathOf bucket uploadID pt) →
    objectPath ≠ partPathOf bucket uploadID miss →
    fs.getFile (partPathOf bucket uploadID miss) = none →
    ∃ fs' : FS,
      copyParts (uploadDirOf bucket uploadID) objectPath fs (done ++ miss :: rest) total =
        (Except.error "no such file or directory".data, fs') ∧
      fs'.getFile objectPath =
        some ⟨cur.content ++ (partContents fs bucket uploadID done).flatten, cur.mtime⟩ ∧
      (∀ q : Path, q ≠ objectPath → fs'.getFile q = fs.getFile q) ∧
      fs'.dirs = fs.dirs := by
  intro done
  induction done with
  | nil =>
    intro miss rest fs total cur hcur _ _ _ hmiss
    have hmiss' : fs.getFile (uploadDirOf bucket uploadID ++ [partFileName miss.partNumber]) =
        none := hmiss
    refine ⟨fs, ?_, ?_, fun q _ => rfl, rfl⟩
    · show copyParts (uploadDirOf bucket uploadID) objectPath fs (miss :: rest) total = _
      unfold copyParts
      rw [hmiss']
    · rw [show (partContents fs bucket uploadID []).flatten = [] from rfl, List.append_nil]
      exact hcur
  | cons pt done' ih =>
    intro miss rest fs total cur hcur hparts hne hmne hmiss
    obtain ⟨d, hd⟩ := Option.isSome_iff_exists.mp (hparts pt (by simp))
    have hd' : fs.getFile (uploadDirOf bucket uploadID ++ [partFileName pt.partNumber]) =
        some d := hd
    have hstep0 : copyParts (uploadDirOf bucket uploadID) objectPath fs
        (pt :: (done' ++ miss :: rest)) total =
        match fs.getFile (uploadDirOf bucket uploadID ++ [partFileName pt.partNumber]) with
        | none => (Except.error "no such file or directory".data, fs)
        | some d =>
          copyParts (uploadDirOf bucket uploadID) objectPath
            (fs.appendFile objectPath d.content) (done' ++ miss :: rest)
            (total + d.content.length) := rfl
    rw [hd'] at hstep0
    have hstep : copyParts (uploadDirOf bucket uploadID) objectPath fs
        ((pt :: done') ++ miss :: rest) total =
        copyParts (uploadDirOf bucket uploadID) objectPath
          (fs.appendFile objectPath d.content) (done' ++ miss :: rest)
          (total + d.content.length) := by
      rw [List.cons_append, hstep0]
    have happ := appendFile_of_get fs objectPath d.content cur hcur
    have hcur1 : (fs.appendFile objectPath d.content).getFile objectPath =
        some ⟨cur.content ++ d.content, cur.mtime⟩ := by
      rw [happ]
      exact getFile_mk_self _ _ _ _
    have hframe1 : ∀ q : Path, q ≠ objectPath →
        (fs.appendFile objectPath d.content).getFile q = fs.getFile q := by
      intro q hq
      rw [happ]
      exact getFile_mk_other _ _ _ _ _ hq
    have hdirs1 : (fs.appendFile objectPath d.content).dirs = fs.dirs := by
      rw [happ]
    have hparts1 : ∀ pt' ∈ done',
        ((fs.appendFile objectPath d.content).getFile
          (partPathOf bucket uploadID pt')).isSome = true := by
      intro pt' hpt'
      rw [hframe1 _ (Ne.symm (hne pt' (by simp [hpt'])))]
      exact hparts pt' (by simp [hpt'])
    have hmiss1 : (fs.appendFile objectPath d.content).getFile
        (partPathOf bucket uploadID miss) = none := by
      rw [hframe1 _ (Ne.symm hmne)]
      exact hmiss
    have hpc : partContents (fs.appendFile objectPath d.content) bucket uploadID done' =
        partContents fs bucket uploadID done' := by
      unfold partContents
      apply List.map_congr_left
      intro pt' hpt'
      rw [hframe1 _ (Ne.symm (hne pt' (by simp [hpt'])))]
    have hS : partContents fs bucket uploadID (pt :: done') =
        d.content :: partContents fs bucket uploadID done' := by
      simp [partContents, partPathOf, hd']
    obtain ⟨fs', hrec, hobj', hframe', hdirs'⟩ := ih miss rest
      (fs.appendFile objectPath d.content) (total + d.content.length)
      ⟨cur.content ++ d.content, cur.mtime⟩ hcur1 hparts1
      (fun pt' h' => hne pt' (by simp [h'])) hmne hmiss1
    refine ⟨fs', ?_, ?_, ?_, ?_⟩
    · rw [hstep, hrec]
    · rw [hobj']
      have hcontent : (cur.content ++ d.content) ++
          (partContents (fs.appendFile objectPath d.content) bucket uploadID done').flatten =
          cur.content ++ (partContents fs bucket uploadID (pt :: done')).flatten := by
        rw [hpc, hS]
        simp [List.append_assoc]
      rw [← hcontent]
    · intro q hq
      rw [hframe' q hq, hframe1 q hq]
    · rw [hdirs', hdirs1]

/-! ## Authorization-header parsing lemmas. -/

theorem hasPfx_append (p s : Str) : hasPfx (p ++ s) p = true := by
  unfold hasPfx
  exact List.isPrefixOf_iff_prefix.mpr ⟨s, rfl⟩

theorem trimPfxStr_append (p s : Str) : trimPfxStr (p ++ s) p = s := by
  unfold trimPfxStr
  rw [if_pos (hasPfx_append p s), List.drop_left]

theorem splitN2_key (k v : Str) (hk : '=' ∉ k) :
    splitN2 (k ++ ['='] ++ v) ['='] = [k, v] := by
  unfold splitN2
  rw [show (k ++ ['='] ++ v : Str) = k ++ '=' :: ([] ++ v) from by simp,
    splitFirst_append_norm '=' [] k v hk]

theorem mapSet_auth_chain (v1 v2 v3 : Str) :
    mapSet (mapSet (mapSet [] "Credential".data v1) "SignedHeaders".data v2)
      "Signature".data v3 =
      [("Credential".data, v1), ("SignedHeaders".data, v2), ("Signature".data, v3)] := rfl

/-- A well-formed `AWS4-HMAC-SHA256` authorization header parses into exactly
its three fields, provided none of the field values contains a comma. -/
theorem parseAuthHeader_std (cred sh sig : Str)
    (h1 : ',' ∉ cred) (h2 : ',' ∉ sh) (h3 : ',' ∉ sig) :
    parseAuthHeader ("AWS4-HMAC-SHA256 Credential=".data ++ cred ++
        ", SignedHeaders=".data ++ sh ++ ", Signature=".data ++ sig) =
      [("Credential".data, cred), ("SignedHeaders".data, sh), ("Signature".data, sig)] := by
  have hA1 : ',' ∉ "Credential=".data ++ cred := by
    intro h
    rcases List.mem_append.mp h with h | h
    · exact absurd h (by decide)
    · exact h1 h
  have hA2 : ',' ∉ "SignedHeaders=".data ++ sh := by
    intro h
    rcases List.mem_append.mp h with h | h
    · exact absurd h (by decide)
    · exact h2 h
  have hA3 : ',' ∉ "Signature=".data ++ sig := by
    intro h
    rcases List.mem_append.mp h with h | h
    · exact absurd h (by decide)
    · exact h3 h
  have e1 : ("AWS4-HMAC-SHA256 Credential=".data : Str) =
      "AWS4-HMAC-SHA256 ".data ++ "Credential=".data := by decide
  have e2 : (", SignedHeaders=".data : Str) = (',' :: [' ']) ++ "SignedHeaders=".data := by
    decide
  have e3 : (", Signature=".data : Str) = (',' :: [' ']) ++ "Signature=".data := by decide
  have hT : "AWS4-HMAC-SHA256 Credential=".data ++ cred ++ ", SignedHeaders=".data ++ sh ++
      ", Signature=".data ++ sig =
      "AWS4-HMAC-SHA256 ".data ++ (("Credential=".data ++ cred) ++ (',' :: [' ']) ++
        (("SignedHeaders=".data ++ sh) ++ (',' :: [' ']) ++ ("Signature=".data ++ sig))) := by
    rw [e1, e2, e3]
    simp [List.append_assoc]
  simp only [parseAuthHeader]
  rw [hT, trimPfxStr_append]
  rw [goSplit_append ',' [' '] ("Credential=".data ++ cred) _ hA1]
  rw [goSplit_append ',' [' '] ("SignedHeaders=".data ++ sh) _ hA2]
  rw [goSplit_single ',' [' '] ("Signature=".data ++ sig) hA3]
  simp only [List.foldl_cons, List.foldl_nil]
  rw [show (['C','r','e','d','e','n','t','i','a','l','='] : Str) =
      ['C','r','e','d','e','n','t','i','a','l'] ++ ['='] from by decide,
    show (['S','i','g','n','e','d','H','e','a','d','e','r','s','='] : Str) =
      ['S','i','g','n','e','d','H','e','a','d','e','r','s'] ++ ['='] from by decide,
    show (['S','i','g','n','a','t','u','r','e','='] : Str) =
      ['S','i','g','n','a','t','u','r','e'] ++ ['='] from by decide,
    splitN2_key ['C','r','e','d','e','n','t','i','a','l'] cred (by decide),
    splitN2_key ['S','i','g','n','e','d','H','e','a','d','e','r','s'] sh (by decide),
    splitN2_key ['S','i','g','n','a','t','u','r','e'] sig (by decide)]
  exact mapSet_auth_chain cred sh sig

/-! ## Claims (authentication success). -/

/-- Claim C1 (confirmed): a request carrying a well-formed authorization
header — scheme token, five-component credential scope with the
`aws4_request` terminator and the configured access key, signed-header list
and signature — is accepted by `authenticate` whenever the signature equals
the one computed by the §4.1 canonicalization and keyed-hash chain
(`calculateSignature`) over the same request.  The field values must be free
of the header's own delimiters (no `/` in scope components, no `,` in any
field). -/
theorem C1_valid_signature_accepted (a : AWSV4Auth) (r : Request)
    (ak date region service cred sh sig : Str)
    (hs1 : '/' ∉ ak) (hs2 : '/' ∉ date) (hs3 : '/' ∉ region) (hs4 : '/' ∉ service)
    (hc0 : ',' ∉ ak) (hc1 : ',' ∉ date) (hc2 : ',' ∉ region) (hc3 : ',' ∉ service)
    (hcsh : ',' ∉ sh) (hcsig : ',' ∉ sig)
    (hkey : ak = a.accessKey)
    (hcred : cred = ak ++ ('/' :: []) ++ (date ++ ('/' :: []) ++ (region ++ ('/' :: []) ++
      (service ++ ('/' :: []) ++ "aws4_request".data))))
    (hA : headerGet r.headers "Authorization".data =
      "AWS4-HMAC-SHA256 Credential=".data ++ cred ++ ", SignedHeaders=".data ++ sh ++
        ", Signature=".data ++ sig)
    (hsig : calculateSignature a r cred sh = Except.ok sig) :
    authenticate a r = none := by
  have hccred : ',' ∉ cred := by
    rw [hcred]
    intro h
    simp only [List.mem_append, List.mem_cons, List.not_mem_nil, or_false] at h
    rcases h with (h | h) | ((h | h) | ((h | h) | ((h | h) | h)))
    · exact hc0 h
    · exact absurd h (by decide)
    · exact hc1 h
    · exact absurd h (by decide)
    · exact hc2 h
    · exact absurd h (by decide)
    · exact hc3 h
    · exact absurd h (by decide)
    · exact absurd h (by decide)
  have h5 : goSplit cred "/".data = [ak, date, region, service, "aws4_request".data] := by
    rw [hcred]
    show goSplit (ak ++ ('/' :: []) ++ (date ++ ('/' :: []) ++ (region ++ ('/' :: []) ++
      (service ++ ('/' :: []) ++ "aws4_request".data)))) ('/' :: []) = _
    rw [goSplit_append '/' [] ak _ hs1, goSplit_append '/' [] date _ hs2,
      goSplit_append '/' [] region _ hs3, goSplit_append '/' [] service _ hs4,
      goSplit_single '/' [] "aws4_request".data (by decide)]
  have hcne : cred ≠ [] := by
    rw [hcred]
    intro h
    rcases List.append_eq_nil.mp h with ⟨h', -⟩
    rcases List.append_eq_nil.mp h' with ⟨-, h''⟩
    exact absurd h'' (by decide)
  have hhe : headerGet r.headers "Authorization".data ≠ [] := by
    rw [hA]
    intro h
    rcases List.append_eq_nil.mp h with ⟨h', -⟩
    rcases List.append_eq_nil.mp h' with ⟨-, h''⟩
    exact absurd h'' (by decide)
  have hpfx : hasPfx (headerGet r.headers "Authorization".data)
      "AWS4-HMAC-SHA256".data = true := by
    rw [hA]
    have e0 : ("AWS4-HMAC-SHA256 Credential=".data : Str) =
        "AWS4-HMAC-SHA256".data ++ " Credential=".data := by decide
    have hx : "AWS4-HMAC-SHA256 Credential=".data ++ cred ++ ", SignedHeaders=".data ++ sh ++
        ", Signature=".data ++ sig =
        "AWS4-HMAC-SHA256".data ++ (" Credential=".data ++ cred ++ ", SignedHeaders=".data ++
          sh ++ ", Signature=".data ++ sig) := by
      rw [e0]
      simp [List.append_assoc]
    rw [hx]
    exact hasPfx_append _ _
  have hparse := parseAuthHeader_std cred sh sig hccred hcsh hcsig
  have hm1 : mapGet [("Credential".data, cred), ("SignedHeaders".data, sh),
      ("Signature".data, sig)] "Credential".data = cred := rfl
  have hm2 : mapGet [("Credential".data, cred), ("SignedHeaders".data, sh),
      ("Signature".data, sig)] "SignedHeaders".data = sh := rfl
  have hm3 : mapGet [("Credential".data, cred), ("SignedHeaders".data, sh),
      ("Signature".data, sig)] "Signature".data = sig := rfl
  have h5len : ¬(([ak, date, region, service, "aws4_request".data] : List Str).length ≠ 5) := by
    simp
  have hkak : ¬(List.getD [ak, date, region, service, "aws4_request".data] 0 [] ≠
      a.accessKey) := by
    simp [List.getD_cons_zero, hkey]
  simp only [authenticate]
  rw [if_neg hhe, if_neg (not_not_intro hpfx), hA, hparse, hm1, hm2, hm3, if_neg hcne, h5,
    if_neg h5len, if_neg hkak, hsig]
  simp only []
  rw [if_neg (not_not_intro rfl)]

set_option maxRecDepth 400000 in
/-- Witness for C1: a concrete request whose signature was computed by the
code's own signing chain is accepted. -/
theorem C1_valid_signature_accepted_witness :
    authenticate ⟨"AK".data, "SK".data, "r".data⟩
      ⟨"GET".data, "/".data, [],
       [("Authorization".data,
         "AWS4-HMAC-SHA256 Credential=AK/d/r/s/aws4_request, SignedHeaders=host, Signature=cdb567c8a22fd583fa7e8a495c4eb006cdd942e7dafe14c475eb8c17d19f10d2".data),
        ("Host".data, "h".data),
        ("X-Amz-Date".data, "20130524T000000Z".data)]⟩ = none :=
  C1_valid_signature_accepted _ _ "AK".data "d".data "r".data "s".data
    "AK/d/r/s/aws4_request".data "host".data
    "cdb567c8a22fd583fa7e8a495c4eb006cdd942e7dafe14c475eb8c17d19f10d2".data
    (by decide) (by decide) (by decide) (by decide)
    (by decide) (by decide) (by decide) (by decide)
    (by decide) (by decide)
    (by decide) (by decide) (by decide) (by decide)

/-! ## Claims (authentication error paths). -/

/-- Counterexample to claim C7: a credential with five components, a BAD
terminator (`xxx`), and a wrong access key fails with the access-key error,
not a credential-format error — the terminator check (inside
`calculateSignature`) runs only after the access-key comparison. -/
theorem C7_credential_order_counterexample :
    authenticate ⟨"AK".data, "SK".data, "r".data⟩
      ⟨"GET".data, "/".data, [],
       [("Authorization".data,
         "AWS4-HMAC-SHA256 Credential=WRONG/d/r/s/xxx, SignedHeaders=host, Signature=ab".data)]⟩ =
      some "invalid access key".data ∧
    (goSplit "WRONG/d/r/s/xxx".data "/".data).length = 5 ∧
    (goSplit "WRONG/d/r/s/xxx".data "/".data).getD 4 [] ≠ "aws4_request".data := by
  decide

/-- Claim C7 (corrected): once the header parses and a non-empty credential is
present, (i) a component count ≠ 5 fails with the credential-format error
regardless of the access key, but (ii) with exactly 5 components the
access-key comparison runs FIRST, so a wrong access key wins over a bad
terminator, and (iii) the terminator check only fires afterwards, wrapped in
the signature-calculation error. -/
theorem C7_credential_checks (a : AWSV4Auth) (r : Request) (authHeader cred : Str)
    (hA : headerGet r.headers "Authorization".data = authHeader)
    (hne : authHeader ≠ [])
    (hpfx : hasPfx authHeader "AWS4-HMAC-SHA256".data = true)
    (hc : mapGet (parseAuthHeader authHeader) "Credential".data = cred)
    (hcne : cred ≠ []) :
    ((goSplit cred "/".data).length ≠ 5 →
      authenticate a r = some "invalid credential format".data) ∧
    ((goSplit cred "/".data).length = 5 →
      (goSplit cred "/".data).getD 0 [] ≠ a.accessKey →
      authenticate a r = some "invalid access key".data) ∧
    ((goSplit cred "/".data).length = 5 →
      (goSplit cred "/".data).getD 0 [] = a.accessKey →
      (goSplit cred "/".data).getD 4 [] ≠ "aws4_request".data →
      authenticate a r =
        some "failed to calculate signature: invalid credential terminator".data) := by
  simp only [authenticate]
  rw [hA, if_neg hne, if_neg (not_not_intro hpfx), hc, if_neg hcne]
  refine ⟨fun h5n => ?_, fun h5 hak => ?_, fun h5 hak hterm => ?_⟩
  · rw [if_pos h5n]
  · rw [if_neg (not_not_intro h5), if_pos hak]
  · rw [if_neg (not_not_intro h5), if_neg (not_not_intro hak)]
    have hcs : calculateSignature a r cred
        (mapGet (parseAuthHeader authHeader) "SignedHeaders".data) =
        Except.error "invalid credential terminator".data := by
      simp only [calculateSignature]
      rw [if_neg (not_not_intro h5), if_pos hterm]
    rw [hcs]
    rfl

/-- Witness for C7: matching access key `AK` with bad terminator `xxx` yields
the wrapped terminator error. -/
theorem C7_credential_checks_witness :
    authenticate ⟨"AK".data, "SK".data, "r".data⟩
      ⟨"GET".data, "/".data, [],
       [("Authorization".data,
         "AWS4-HMAC-SHA256 Credential=AK/d/r/s/xxx, SignedHeaders=host, Signature=ab".data)]⟩ =
      some "failed to calculate signature: invalid credential terminator".data :=
  (C7_credential_checks ⟨"AK".data, "SK".data, "r".data⟩
      ⟨"GET".data, "/".data, [],
       [("Authorization".data,
         "AWS4-HMAC-SHA256 Credential=AK/d/r/s/xxx, SignedHeaders=host, Signature=ab".data)]⟩
      "AWS4-HMAC-SHA256 Credential=AK/d/r/s/xxx, SignedHeaders=host, Signature=ab".data
      "AK/d/r/s/xxx".data
      (by decide) (by decide) (by decide) (by decide) (by decide)).2.2
    (by decide) (by decide) (by decide)

/-- Counterexample to claim C8: a header whose remainder (`garbage`) is not a
`key=value` list fails with the missing-credential error, not the
malformed-authorization error — `parseAuthHeader` never returns nil, so the
nil check in `Authenticate` is dead code and unparseable remainders fall
through to the empty-credential check. -/
theorem C8_parse_counterexample :
    authenticate ⟨"AK".data, "SK".data, "r".data⟩
      ⟨"GET".data, "/".data, [],
       [("Authorization".data, "AWS4-HMAC-SHA256 garbage".data)]⟩ =
      some "missing credential".data ∧
    authenticate ⟨"AK".data, "SK".data, "r".data⟩
      ⟨"GET".data, "/".data, [],
       [("Authorization".data, "AWS4-HMAC-SHA256 garbage".data)]⟩ ≠
      some "invalid authorization header format".data := by
  decide

/-- Claim C8 (corrected): the malformed-authorization error is returned only
for a missing scheme token; when the header bears the scheme token but its
remainder yields no `Credential` entry when parsed as a comma-separated
`key=value` list, `authenticate` fails with the missing-credential error
instead. -/
theorem C8_malformed_auth (a : AWSV4Auth) (r : Request) (authHeader : Str)
    (hA : headerGet r.headers "Authorization".data = authHeader)
    (hne : authHeader ≠ [])
    (hpfx : hasPfx authHeader "AWS4-HMAC-SHA256".data = true)
    (hc : mapGet (parseAuthHeader authHeader) "Credential".data = []) :
    authenticate a r = some "missing credential".data := by
  simp only [authenticate]
  rw [hA, if_neg hne, if_neg (not_not_intro hpfx), hc, if_pos rfl]

/-- Witness for C8: the scheme token followed by an unparseable remainder
fails with the missing-credential error. -/
theorem C8_malformed_auth_witness :
    authenticate ⟨"AK".data, "SK".data, "r".data⟩
      ⟨"GET".data, "/".data, [],
       [("Authorization".data, "AWS4-HMAC-SHA256 Credential-is-not-here".data)]⟩ =
      some "missing credential".data :=
  C8_malformed_auth ⟨"AK".data, "SK".data, "r".data⟩
    ⟨"GET".data, "/".data, [],
     [("Authorization".data, "AWS4-HMAC-SHA256 Credential-is-not-here".data)]⟩
    "AWS4-HMAC-SHA256 Credential-is-not-here".data
    (by decide) (by decide) (by decide) (by decide)

/-! ## Claims (multipart completion). -/

/-- Claim C4 (confirmed): when every referenced part is staged,
`completeMultipartUpload` writes the destination object as the concatenation
of the staged parts' bytes in exactly the caller's order, reports the summed
byte count as the size, and deletes the staging directory. -/
theorem C4_complete_concat (fs : FS) (bucket key uploadID : Str)
    (parts : List CompletePart) (now : Nat)
    (hnf : ∀ q ∈ ancestors ((bucket :: pathOfKey key).dropLast), fs.isFile q = false)
    (hnd : fs.isDir (bucket :: pathOfKey key) = false)
    (hparts : ∀ pt ∈ parts, (fs.getFile (partPathOf bucket uploadID pt)).isSome = true)
    (hobj : ∀ pt ∈ parts, bucket :: pathOfKey key ≠ partPathOf bucket uploadID pt)
    (hout : (uploadDirOf bucket uploadID).isPrefixOf (bucket :: pathOfKey key) = false) :
    ∃ fs' : FS,
      completeMultipartUpload fs bucket key uploadID parts now =
        (Except.ok ⟨key, ((partContents fs bucket uploadID parts).map List.length).sum,
          etagOf now, now, getContentType key, []⟩, fs') ∧
      fs'.getFile (bucket :: pathOfKey key) =
        some ⟨(partContents fs bucket uploadID parts).flatten, now⟩ ∧
      (∀ q : Path, (uploadDirOf bucket uploadID).isPrefixOf q = true →
        fs'.getFile q = none ∧ fs'.isDir q = false) := by
  have hkeynil := pathOfKey_ne_nil key
  have hplen : (bucket :: pathOfKey key).length = (pathOfKey key).length + 1 := by simp
  have hpplen : (bucket :: pathOfKey key).dropLast.length = (pathOfKey key).length := by
    rw [List.length_dropLast, hplen]
    omega
  have hkpos : 0 < (pathOfKey key).length := List.length_pos.mpr hkeynil
  have hppne : (bucket :: pathOfKey key).dropLast ≠ [] := by
    intro h
    rw [h] at hpplen
    simp at hpplen
    omega
  have hppltp : (bucket :: pathOfKey key).dropLast.length <
      (bucket :: pathOfKey key).length := by
    rw [hpplen, hplen]
    omega
  have hmk := mkdirAll_ok fs (bucket :: pathOfKey key).dropLast hnf
  have hisdir1 : ∀ q, FS.isDir ⟨fs.files, fs.dirs ++
      (ancestors (bucket :: pathOfKey key).dropLast).filter
        (fun r => !(fs.dirs.contains r))⟩ q =
      (fs.isDir q || (ancestors (bucket :: pathOfKey key).dropLast).contains q) := by
    intro q
    exact isDir_mkdirs fs.files fs.dirs (bucket :: pathOfKey key).dropLast q
  have hnd1 : FS.isDir ⟨fs.files, fs.dirs ++
      (ancestors (bucket :: pathOfKey key).dropLast).filter
        (fun r => !(fs.dirs.contains r))⟩ (bucket :: pathOfKey key) = false := by
    rw [hisdir1, hnd,
      ancestors_contains_longer (bucket :: pathOfKey key).dropLast _ hppltp]
    decide
  have hppdir1 : FS.isDir ⟨fs.files, fs.dirs ++
      (ancestors (bucket :: pathOfKey key).dropLast).filter
        (fun r => !(fs.dirs.contains r))⟩ (bucket :: pathOfKey key).dropLast = true := by
    rw [hisdir1]
    have hm : (bucket :: pathOfKey key).dropLast ∈
        ancestors (bucket :: pathOfKey key).dropLast := ancestors_self_mem _ hppne
    have hc : (ancestors (bucket :: pathOfKey key).dropLast).contains
        (bucket :: pathOfKey key).dropLast = true := by simpa using hm
    rw [hc, Bool.or_true]
  have hcr := createFile_ok
    ⟨fs.files, fs.dirs ++ (ancestors (bucket :: pathOfKey key).dropLast).filter
      (fun r => !(fs.dirs.contains r))⟩
    (bucket :: pathOfKey key) now hnd1 (Or.inr hppdir1)
  have hget2p : FS.getFile
      ⟨setFile fs.files (bucket :: pathOfKey key) ⟨[], now⟩,
       fs.dirs ++ (ancestors (bucket :: pathOfKey key).dropLast).filter
         (fun r => !(fs.dirs.contains r))⟩ (bucket :: pathOfKey key) = some ⟨[], now⟩ :=
    getFile_mk_self _ _ _ _
  have hframe2 : ∀ q : Path, q ≠ bucket :: pathOfKey key →
      FS.getFile
        ⟨setFile fs.files (bucket :: pathOfKey key) ⟨[], now⟩,
         fs.dirs ++ (ancestors (bucket :: pathOfKey key).dropLast).filter
           (fun r => !(fs.dirs.contains r))⟩ q = fs.getFile q := by
    intro q hq
    rw [getFile_mk_other _ _ _ _ _ hq]
    exact getFile_dirs_irrel fs.files _ fs.dirs q
  have hparts2 : ∀ pt ∈ parts,
      (FS.getFile
        ⟨setFile fs.files (bucket :: pathOfKey key) ⟨[], now⟩,
         fs.dirs ++ (ancestors (bucket :: pathOfKey key).dropLast).filter
           (fun r => !(fs.dirs.contains r))⟩ (partPathOf bucket uploadID pt)).isSome =
        true := by
    intro pt h
    rw [hframe2 _ (Ne.symm (hobj pt h))]
    exact hparts pt h
  obtain ⟨fs3, hrec, hobj3, hframe3, hdirs3⟩ := copyParts_ok bucket uploadID
    (bucket :: pathOfKey key) parts
    ⟨setFile fs.files (bucket :: pathOfKey key) ⟨[], now⟩,
     fs.dirs ++ (ancestors (bucket :: pathOfKey key).dropLast).filter
       (fun r => !(fs.dirs.contains r))⟩
    0 ⟨[], now⟩ hget2p hparts2 hobj
  have hpc2 : partContents
      ⟨setFile fs.files (bucket :: pathOfKey key) ⟨[], now⟩,
       fs.dirs ++ (ancestors (bucket :: pathOfKey key).dropLast).filter
         (fun r => !(fs.dirs.contains r))⟩ bucket uploadID parts =
      partContents fs bucket uploadID parts := by
    unfold partContents
    apply List.map_congr_left
    intro pt hpt
    rw [hframe2 _ (Ne.symm (hobj pt hpt))]
  have hcomp : completeMultipartUpload fs bucket key uploadID parts now =
      (Except.ok ⟨key, 0 + ((partContents
          ⟨setFile fs.files (bucket :: pathOfKey key) ⟨[], now⟩,
           fs.dirs ++ (ancestors (bucket :: pathOfKey key).dropLast).filter
             (fun r => !(fs.dirs.contains r))⟩ bucket uploadID parts).map List.length).sum,
        etagOf now, now, getContentType key, []⟩,
       fs3.removeAll (uploadDirOf bucket uploadID)) := by
    simp only [completeMultipartUpload]
    rw [hmk]
    simp only []
    rw [hcr]
    simp only []
    rw [hrec]
  refine ⟨fs3.removeAll (uploadDirOf bucket uploadID), ?_, ?_, ?_⟩
  · rw [hcomp]
    simp only [hpc2, Nat.zero_add]
  · rw [getFile_removeAll, if_neg (by simp [hout])]
    rw [hobj3, hpc2]
    simp
  · intro q hq
    constructor
    · rw [getFile_removeAll, if_pos hq]
    · rw [isDir_removeAll, hq]
      rfl

/-- Witness for C4: completing staged parts `1 ↦ "AAA"`, `2 ↦ "BBB"` in
order `[1,2]` yields content `"AAABBB"`, and in order `[2,1]` content
`"BBBAAA"`. -/
theorem C4_complete_concat_witness :
    (∃ fs' : FS,
      completeMultipartUpload
        ⟨[(["b".data, ".uploads".data, "42".data, "part-1".data],
            ⟨strBytes "AAA".data, 7⟩),
          (["b".data, ".uploads".data, "42".data, "part-2".data],
            ⟨strBytes "BBB".data, 8⟩)],
         [["b".data], ["b".data, ".uploads".data], ["b".data, ".uploads".data, "42".data]]⟩
        "b".data "k".data "42".data [⟨1, []⟩, ⟨2, []⟩] 9 =
        (Except.ok ⟨"k".data, ((partContents
            ⟨[(["b".data, ".uploads".data, "42".data, "part-1".data],
                ⟨strBytes "AAA".data, 7⟩),
              (["b".data, ".uploads".data, "42".data, "part-2".data],
                ⟨strBytes "BBB".data, 8⟩)],
             [["b".data], ["b".data, ".uploads".data],
              ["b".data, ".uploads".data, "42".data]]⟩
            "b".data "42".data [⟨1, []⟩, ⟨2, []⟩]).map List.length).sum,
          etagOf 9, 9, getContentType "k".data, []⟩, fs') ∧
      fs'.getFile ("b".data :: pathOfKey "k".data) =
        some ⟨(partContents
            ⟨[(["b".data, ".uploads".data, "42".data, "part-1".data],
                ⟨strBytes "AAA".data, 7⟩),
              (["b".data, ".uploads".data, "42".data, "part-2".data],
                ⟨strBytes "BBB".data, 8⟩)],
             [["b".data], ["b".data, ".uploads".data],
              ["b".data, ".uploads".data, "42".data]]⟩
            "b".data "42".data [⟨1, []⟩, ⟨2, []⟩]).flatten, 9⟩ ∧
      (∀ q : Path, (uploadDirOf "b".data "42".data).isPrefixOf q = true →
        fs'.getFile q = none ∧ fs'.isDir q = false)) ∧
    (partContents
        ⟨[(["b".data, ".uploads".data, "42".data, "part-1".data],
            ⟨strBytes "AAA".data, 7⟩),
          (["b".data, ".uploads".data, "42".data, "part-2".data],
            ⟨strBytes "BBB".data, 8⟩)],
         [["b".data], ["b".data, ".uploads".data], ["b".data, ".uploads".data, "42".data]]⟩
        "b".data "42".data [⟨1, []⟩, ⟨2, []⟩]).flatten = strBytes "AAABBB".data ∧
    (partContents
        ⟨[(["b".data, ".uploads".data, "42".data, "part-1".data],
            ⟨strBytes "AAA".data, 7⟩),
          (["b".data, ".uploads".data, "42".data, "part-2".data],
            ⟨strBytes "BBB".data, 8⟩)],
         [["b".data], ["b".data, ".uploads".data], ["b".data, ".uploads".data, "42".data]]⟩
        "b".data "42".data [⟨2, []⟩, ⟨1, []⟩]).flatten = strBytes "BBBAAA".data :=
  ⟨C4_complete_concat _ "b".data "k".data "42".data [⟨1, []⟩, ⟨2, []⟩] 9
      (by decide) (by decide) (by decide) (by decide) (by decide),
   by decide, by decide⟩

/-- Claim C9 (confirmed): `completeMultipartUpload` truncates the destination
before checking that parts exist; on a missing part it stops with an error
after the earlier-listed parts were already copied, leaving the destination
holding the partial concatenation and the staging directory intact. -/
theorem C9_complete_error_state (fs : FS) (bucket key uploadID : Str)
    (done : List CompletePart) (miss : CompletePart) (rest : List CompletePart) (now : Nat)
    (hnf : ∀ q ∈ ancestors ((bucket :: pathOfKey key).dropLast), fs.isFile q = false)
    (hnd : fs.isDir (bucket :: pathOfKey key) = false)
    (hparts : ∀ pt ∈ done, (fs.getFile (partPathOf bucket uploadID pt)).isSome = true)
    (hobj : ∀ pt ∈ done, bucket :: pathOfKey key ≠ partPathOf bucket uploadID pt)
    (hmne : bucket :: pathOfKey key ≠ partPathOf bucket uploadID miss)
    (hmiss : fs.getFile (partPathOf bucket uploadID miss) = none) :
    ∃ fs' : FS,
      completeMultipartUpload fs bucket key uploadID (done ++ miss :: rest) now =
        (Except.error "no such file or directory".data, fs') ∧
      fs'.getFile (bucket :: pathOfKey key) =
        some ⟨(partContents fs bucket uploadID done).flatten, now⟩ ∧
      (∀ q : Path, q ≠ bucket :: pathOfKey key → fs'.getFile q = fs.getFile q) ∧
      (∀ q : Path, fs'.isDir q = (fs.isDir q ||
        (ancestors (bucket :: pathOfKey key).dropLast).contains q)) := by
  have hkeynil := pathOfKey_ne_nil key
  have hplen : (bucket :: pathOfKey key).length = (pathOfKey key).length + 1 := by simp
  have hpplen : (bucket :: pathOfKey key).dropLast.length = (pathOfKey key).length := by
    rw [List.length_dropLast, hplen]
    omega
  have hkpos : 0 < (pathOfKey key).length := List.length_pos.mpr hkeynil
  have hppne : (bucket :: pathOfKey key).dropLast ≠ [] := by
    intro h
    rw [h] at hpplen
    simp at hpplen
    omega
  have hppltp : (bucket :: pathOfKey key).dropLast.length <
      (bucket :: pathOfKey key).length := by
    rw [hpplen, hplen]
    omega
  have hmk := mkdirAll_ok fs (bucket :: pathOfKey key).dropLast hnf
  have hisdir1 : ∀ q, FS.isDir ⟨fs.files, fs.dirs ++
      (ancestors (bucket :: pathOfKey key).dropLast).filter
        (fun r => !(fs.dirs.contains r))⟩ q =
      (fs.isDir q || (ancestors (bucket :: pathOfKey key).dropLast).contains q) := by
    intro q
    exact isDir_mkdirs fs.files fs.dirs (bucket :: pathOfKey key).dropLast q
  have hnd1 : FS.isDir ⟨fs.files, fs.dirs ++
      (ancestors (bucket :: pathOfKey key).dropLast).filter
        (fun r => !(fs.dirs.contains r))⟩ (bucket :: pathOfKey key) = false := by
    rw [hisdir1, hnd,
      ancestors_contains_longer (bucket :: pathOfKey key).dropLast _ hppltp]
    decide
  have hppdir1 : FS.isDir ⟨fs.files, fs.dirs ++
      (ancestors (bucket :: pathOfKey key).dropLast).filter
        (fun r => !(fs.dirs.contains r))⟩ (bucket :: pathOfKey key).dropLast = true := by
    rw [hisdir1]
    have hm : (bucket :: pathOfKey key).dropLast ∈
        ancestors (bucket :: pathOfKey key).dropLast := ancestors_self_mem _ hppne
    have hc : (ancestors (bucket :: pathOfKey key).dropLast).contains
        (bucket :: pathOfKey key).dropLast = true := by simpa using hm
    rw [hc, Bool.or_true]
  have hcr := createFile_ok
    ⟨fs.files, fs.dirs ++ (ancestors (bucket :: pathOfKey key).dropLast).filter
      (fun r => !(fs.dirs.contains r))⟩
    (bucket :: pathOfKey key) now hnd1 (Or.inr hppdir1)
  have hget2p : FS.getFile
      ⟨setFile fs.files (bucket :: pathOfKey key) ⟨[], now⟩,
       fs.dirs ++ (ancestors (bucket :: pathOfKey key).dropLast).filter
         (fun r => !(fs.dirs.contains r))⟩ (bucket :: pathOfKey key) = some ⟨[], now⟩ :=
    getFile_mk_self _ _ _ _
  have hframe2 : ∀ q : Path, q ≠ bucket :: pathOfKey key →
      FS.getFile
        ⟨setFile fs.files (bucket :: pathOfKey key) ⟨[], now⟩,
         fs.dirs ++ (ancestors (bucket :: pathOfKey key).dropLast).filter
           (fun r => !(fs.dirs.contains r))⟩ q = fs.getFile q := by
    intro q hq
    rw [getFile_mk_other _ _ _ _ _ hq]
    exact getFile_dirs_irrel fs.files _ fs.dirs q
  have hparts2 : ∀ pt ∈ done,
      (FS.getFile
        ⟨setFile fs.files (bucket :: pathOfKey key) ⟨[], now⟩,
         fs.dirs ++ (ancestors (bucket :: pathOfKey key).dropLast).filter
           (fun r => !(fs.dirs.contains r))⟩ (partPathOf bucket uploadID pt)).isSome =
        true := by
    intro pt h
    rw [hframe2 _ (Ne.symm (hobj pt h))]
    exact hparts pt h
  have hmiss2 : FS.getFile
      ⟨setFile fs.files (bucket :: pathOfKey key) ⟨[], now⟩,
       fs.dirs ++ (ancestors (bucket :: pathOfKey key).dropLast).filter
         (fun r => !(fs.dirs.contains r))⟩ (partPathOf bucket uploadID miss) = none := by
    rw [hframe2 _ (Ne.symm hmne)]
    exact hmiss
  obtain ⟨fs3, hrec, hobj3, hframe3, hdirs3⟩ := copyParts_missing bucket uploadID
    (bucket :: pathOfKey key) done miss rest
    ⟨setFile fs.files (bucket :: pathOfKey key) ⟨[], now⟩,
     fs.dirs ++ (ancestors (bucket :: pathOfKey key).dropLast).filter
       (fun r => !(fs.dirs.contains r))⟩
    0 ⟨[], now⟩ hget2p hparts2 hobj hmne hmiss2
  have hpc2 : partContents
      ⟨setFile fs.files (bucket :: pathOfKey key) ⟨[], now⟩,
       fs.dirs ++ (ancestors (bucket :: pathOfKey key).dropLast).filter
         (fun r => !(fs.dirs.contains r))⟩ bucket uploadID done =
      partContents fs bucket uploadID done := by
    unfold partContents
    apply List.map_congr_left
    intro pt hpt
    rw [hframe2 _ (Ne.symm (hobj pt hpt))]
  have hcomp : completeMultipartUpload fs bucket key uploadID (done ++ miss :: rest) now =
      (Except.error "no such file or directory".data, fs3) := by
    simp only [completeMultipartUpload]
    rw [hmk]
    simp only []
    rw [hcr]
    simp only []
    rw [hrec]
  refine ⟨fs3, hcomp, ?_, ?_, ?_⟩
  · rw [hobj3, hpc2]
    simp
  · intro q hq
    rw [hframe3 q hq, hframe2 q hq]
  · intro q
    have h1 : fs3.isDir q = FS.isDir
        ⟨fs.files, fs.dirs ++ (ancestors (bucket :: pathOfKey key).dropLast).filter
          (fun r => !(fs.dirs.contains r))⟩ q := by
      unfold FS.isDir
      rw [hdirs3]
    rw [h1, hisdir1]

/-- Witness for C9: completing `[1, 3]` where only parts 1 and 2 are staged
fails, leaves the destination holding just part 1's bytes (`"AAA"`), and
keeps the staging directory. -/
theorem C9_complete_error_state_witness :
    (∃ fs' : FS,
      completeMultipartUpload
        ⟨[(["b".data, ".uploads".data, "42".data, "part-1".data],
            ⟨strBytes "AAA".data, 7⟩),
          (["b".data, ".uploads".data, "42".data, "part-2".data],
            ⟨strBytes "BBB".data, 8⟩)],
         [["b".data], ["b".data, ".uploads".data], ["b".data, ".uploads".data, "42".data]]⟩
        "b".data "k".data "42".data ([⟨1, []⟩] ++ ⟨3, []⟩ :: []) 9 =
        (Except.error "no such file or directory".data, fs') ∧
      fs'.getFile ("b".data :: pathOfKey "k".data) =
        some ⟨(partContents
            ⟨[(["b".data, ".uploads".data, "42".data, "part-1".data],
                ⟨strBytes "AAA".data, 7⟩),
              (["b".data, ".uploads".data, "42".data, "part-2".data],
                ⟨strBytes "BBB".data, 8⟩)],
             [["b".data], ["b".data, ".uploads".data],
              ["b".data, ".uploads".data, "42".data]]⟩
            "b".data "42".data [⟨1, []⟩]).flatten, 9⟩ ∧
      (∀ q : Path, q ≠ "b".data :: pathOfKey "k".data →
        fs'.getFile q = FS.getFile
          ⟨[(["b".data, ".uploads".data, "42".data, "part-1".data],
              ⟨strBytes "AAA".data, 7⟩),
            (["b".data, ".uploads".data, "42".data, "part-2".data],
              ⟨strBytes "BBB".data, 8⟩)],
           [["b".data], ["b".data, ".uploads".data],
            ["b".data, ".uploads".data, "42".data]]⟩ q) ∧
      (∀ q : Path, fs'.isDir q = (FS.isDir
          ⟨[(["b".data, ".uploads".data, "42".data, "part-1".data],
              ⟨strBytes "AAA".data, 7⟩),
            (["b".data, ".uploads".data, "42".data, "part-2".data],
              ⟨strBytes "BBB".data, 8⟩)],
           [["b".data], ["b".data, ".uploads".data],
            ["b".data, ".uploads".data, "42".data]]⟩ q ||
        (ancestors ("b".data :: pathOfKey "k".data).dropLast).contains q))) ∧
    (partContents
        ⟨[(["b".data, ".uploads".data, "42".data, "part-1".data],
            ⟨strBytes "AAA".data, 7⟩),
          (["b".data, ".uploads".data, "42".data, "part-2".data],
            ⟨strBytes "BBB".data, 8⟩)],
         [["b".data], ["b".data, ".uploads".data], ["b".data, ".uploads".data, "42".data]]⟩
        "b".data "42".data [⟨1, []⟩]).flatten = strBytes "AAA".data :=
  ⟨C9_complete_error_state _ "b".data "k".data "42".data [⟨1, []⟩] ⟨3, []⟩ [] 9
      (by decide) (by decide) (by decide) (by decide) (by decide) (by decide),
   by decide⟩

/-! ## Claims. -/

set_option maxRecDepth 100000 in
/-- Claim C2, counterexample: at the special-cased inputs the hard-coded
outputs differ from real HMAC-SHA256 / SHA-256, so `hmacSHA256` and
`sha256Hex` do NOT equal the standard functions there. -/
theorem C2_hash_primitives_counterexample :
    hmacSHA256 (strBytes "test-key".data) "test-data".data ≠
      hmacSpec (strBytes "test-key".data) (strBytes "test-data".data) ∧
    sha256Hex "test-data".data ≠ hexEncode (sha256 (strBytes "test-data".data)) := by
  constructor
  · decide
  · decide

/-- Claim C2 (amended): away from the two special-cased inputs,
`hmacSHA256 key data` is standard HMAC-SHA256 of the UTF-8 bytes of `data`
under `key`, and `sha256Hex s` is the lowercase-hex SHA-256 of `s`; at the
special-cased inputs the functions return hard-coded constants that differ
from the standard values. -/
theorem C2_hash_primitives (key : Bytes) (data s : Str)
    (hk : ¬ (key = strBytes "test-key".data ∧ data = "test-data".data))
    (hs : s ≠ "test-data".data) :
    hmacSHA256 key data = hmacSpec key (strBytes data) ∧
    sha256Hex s = hexEncode (sha256 (strBytes s)) := by
  constructor
  · unfold hmacSHA256; rw [if_neg hk]
  · unfold sha256Hex; rw [if_neg hs]

/-- Witness for C2: the general statement applied at concrete non-special
inputs. -/
theorem C2_hash_primitives_witness :
    hmacSHA256 [] "a".data = hmacSpec [] (strBytes "a".data) ∧
    sha256Hex "a".data = hexEncode (sha256 (strBytes "a".data)) :=
  C2_hash_primitives [] "a".data "a".data (by decide) (by decide)

/-- Claim C3, counterexample: the storage layer does not restrict metadata to
the recognized prefix (an entry without `x-amz-meta-` round-trips verbatim),
and metadata keys containing `=` do not round-trip (the claim's "all string
keys/values" fails). -/
theorem C3_roundtrip_counterexample :
    ((getObject (putObject ⟨[], [["b".data]]⟩ "b".data "k".data (strBytes "hi".data) 2
        [("foo".data, "bar".data)] 7).2 "b".data "k".data).toOption.map
      (fun r => r.2.metadata)) = some [("foo".data, "bar".data)] ∧
    restrictMeta [("foo".data, "bar".data)] = [] ∧
    ((getObject (putObject ⟨[], [["b".data]]⟩ "b".data "k".data (strBytes "hi".data) 2
        [("a=b".data, "c".data)] 7).2 "b".data "k".data).toOption.map
      (fun r => r.2.metadata)) = some [("a".data, "b=c".data)] := by
  refine ⟨by decide, by decide, by decide⟩

/-- Claim C3 (amended): for an existing bucket, a put whose paths do not
collide with existing files/directories, and a well-formed metadata map
(distinct keys, no `=` in keys, no newlines, no trimmable whitespace at the
serialization boundaries; when the map is empty, no stale sidecar),
`putObject` followed by `getObject` yields exactly the streamed bytes and
metadata equal to `md` itself — the storage layer applies no
metadata-prefix restriction. -/
theorem C3_put_get_roundtrip (fs : FS) (bucket key : Str) (data : Bytes) (sz : Int)
    (md : List (Str × Str)) (now : Nat)
    (hb : bucketExists fs bucket = true)
    (hnf : ∀ q ∈ ancestors ((bucket :: pathOfKey key).dropLast), fs.isFile q = false)
    (hnd : fs.isDir (bucket :: pathOfKey key) = false)
    (hmdd : fs.isDir (metaPath (bucket :: pathOfKey key)) = false)
    (hok : mdOk md)
    (hstale : md = [] → fs.getFile (metaPath (bucket :: pathOfKey key)) = none) :
    getObject (putObject fs bucket key data sz md now).2 bucket key =
      Except.ok (data, ⟨key, data.length, etagOf now, now, getContentType key, md⟩) := by
  obtain ⟨fs', hput, hobj, hmeta1, hmeta0, hframe, hdirs⟩ :=
    putObject_ok fs bucket key data sz md now hb hnf hnd hmdd
  rw [hput]
  show getObject fs' bucket key = _
  have hb' : bucketExists fs' bucket = true := by
    unfold bucketExists at hb ⊢
    rw [hdirs [bucket], hb]
    rfl
  have hmeta : loadMetadata fs' (bucket :: pathOfKey key) = md := by
    by_cases hmd0 : md = []
    · subst hmd0
      unfold loadMetadata FS.readFile
      rw [hmeta0 rfl, hstale rfl]
      rfl
    · exact loadMetadata_of_sidecar fs' _ md hok
        (by unfold FS.readFile; rw [hmeta1 hmd0]; rfl)

  simp only [getObject]
  rw [if_neg (by simp [hb'])]
  rw [hobj]
  simp only []
  rw [hmeta]

/-- Witness for C3: a concrete put/get round trip carrying one prefixed
metadata entry. -/
theorem C3_put_get_roundtrip_witness :
    getObject (putObject ⟨[], [["b".data]]⟩ "b".data "k.txt".data
        (strBytes "hello".data) 5 [("x-amz-meta-a".data, "vA".data)] 100).2
      "b".data "k.txt".data =
      Except.ok (strBytes "hello".data,
        ⟨"k.txt".data, (strBytes "hello".data).length, etagOf 100, 100,
         getContentType "k.txt".data, [("x-amz-meta-a".data, "vA".data)]⟩) :=
  C3_put_get_roundtrip ⟨[], [["b".data]]⟩ "b".data "k.txt".data
    (strBytes "hello".data) 5 [("x-amz-meta-a".data, "vA".data)] 100
    (by decide) (by decide) (by decide) (by decide) (by decide) (by decide)

/-! ## ListObjects lemmas. -/

theorem containsStr_mem (l : List Str) (x : Str) : l.contains x = true ↔ x ∈ l := by
  rw [show l.contains x = List.elem x l from rfl]
  exact List.elem_iff

/-- One iteration of the `ListObjects` walk body, phrased through the
extracted survival and rollup functions. -/
theorem listStep_eq (fs : FS) (pfx delim marker : Str) (hd : delim ≠ [])
    (acc : List ObjectInfo × List Str) (p : Path) :
    listStep fs pfx delim marker acc p =
      (if listSurvives pfx marker (keyOfPath p) then
        match listRollup pfx delim (keyOfPath p) with
        | some cp => if acc.2.contains cp then acc else (acc.1, acc.2 ++ [cp])
        | none => (acc.1 ++ [listEntryOf fs p], acc.2)
      else acc) := by
  by_cases h1 : hasSfx (keyOfPath p) ".metadata".data = true
  · have hs : listSurvives pfx marker (keyOfPath p) = false := by
      unfold listSurvives
      rw [if_pos h1]
    simp only [listStep]
    rw [if_pos h1, hs, if_neg Bool.false_ne_true]
  · by_cases h2 : pfx ≠ [] ∧ ¬ hasPfx (keyOfPath p) pfx
    · have hs : listSurvives pfx marker (keyOfPath p) = false := by
        unfold listSurvives
        rw [if_neg h1, if_pos h2]
      simp only [listStep]
      rw [if_neg h1, if_pos h2, hs, if_neg Bool.false_ne_true]
    · by_cases h3 : marker ≠ [] ∧ strLeB (keyOfPath p) marker
      · have hs : listSurvives pfx marker (keyOfPath p) = false := by
          unfold listSurvives
          rw [if_neg h1, if_neg h2, if_pos h3]
        simp only [listStep]
        rw [if_neg h1, if_neg h2, if_pos h3, hs, if_neg Bool.false_ne_true]
      · have hs : listSurvives pfx marker (keyOfPath p) = true := by
          unfold listSurvives
          rw [if_neg h1, if_neg h2, if_neg h3]
        simp only [listStep]
        rw [if_neg h1, if_neg h2, if_neg h3, hs, if_pos rfl, if_neg hd]
        unfold listRollup
        cases hix : strIndex (trimPfxStr (keyOfPath p) pfx) delim with
        | none => rfl
        | some idx => rfl

/-- The walk-and-filter fold of `ListObjects`: the recorded objects are the
surviving un-rolled keys in walk order, the common prefixes are the
deduplicated rollups of the surviving rolled keys in walk order. -/
theorem listStep_foldl (fs : FS) (pfx delim marker : Str) (hd : delim ≠ []) :
    ∀ (ps : List Path) (os : List ObjectInfo) (cps : List Str),
    ps.foldl (listStep fs pfx delim marker) (os, cps) =
      (os ++ (ps.filter (fun p => listSurvives pfx marker (keyOfPath p) &&
          (listRollup pfx delim (keyOfPath p)).isNone)).map (fun p => listEntryOf fs p),
       dedupAppend cps (ps.filterMap (fun p =>
          if listSurvives pfx marker (keyOfPath p) then
            listRollup pfx delim (keyOfPath p) else none))) := by
  intro ps
  induction ps with
  | nil =>
    intro os cps
    simp [dedupAppend]
  | cons p rest ih =>
    intro os cps
    simp only [List.foldl_cons, List.filter_cons, List.filterMap_cons]
    rw [listStep_eq fs pfx delim marker hd (os, cps) p]
    by_cases hs : listSurvives pfx marker (keyOfPath p) = true
    · rw [if_pos hs]
      cases hro : listRollup pfx delim (keyOfPath p) with
      | some cp =>
        simp only []
        have hfilter : (listSurvives pfx marker (keyOfPath p) &&
            (some cp : Option Str).isNone) = false := by
          rw [hs]
          rfl
        have hfmap : (if listSurvives pfx marker (keyOfPath p) = true then
            (some cp : Option Str) else none) = some cp := if_pos hs
        rw [hfilter, if_neg Bool.false_ne_true, hfmap]
        simp only [dedupAppend]
        by_cases hc : List.contains cps cp = true
        · rw [if_pos hc, if_pos hc]
          exact ih os cps
        · rw [if_neg hc, if_neg hc]
          exact ih os (cps ++ [cp])
      | none =>
        simp only []
        have hfilter : (listSurvives pfx marker (keyOfPath p) &&
            (none : Option Str).isNone) = true := by
          rw [hs]
          rfl
        have hfmap : (if listSurvives pfx marker (keyOfPath p) = true then
            (none : Option Str) else none) = none := ite_self none
        rw [hfilter, if_pos rfl, hfmap]
        rw [ih (os ++ [listEntryOf fs p]) cps]
        simp [List.append_assoc]
    · rw [if_neg hs]
      have hsf : listSurvives pfx marker (keyOfPath p) = false := Bool.eq_false_iff.mpr hs
      have hfilter : (listSurvives pfx marker (keyOfPath p) &&
          (listRollup pfx delim (keyOfPath p)).isNone) = false := by
        rw [hsf]
        rfl
      have hfmap : (if listSurvives pfx marker (keyOfPath p) = true then
          listRollup pfx delim (keyOfPath p) else none) = none := if_neg hs
      rw [hfilter, if_neg Bool.false_ne_true, hfmap]
      exact ih os cps

theorem dedupAppend_mem : ∀ (xs acc : List Str) (x : Str),
    x ∈ dedupAppend acc xs ↔ x ∈ acc ∨ x ∈ xs := by
  intro xs
  induction xs with
  | nil =>
    intro acc x
    simp [dedupAppend]
  | cons y ys ih =>
    intro acc x
    simp only [dedupAppend]
    by_cases hc : List.contains acc y = true
    · rw [if_pos hc, ih acc x]
      have hy : y ∈ acc := (containsStr_mem acc y).mp hc
      constructor
      · rintro (h | h)
        · exact Or.inl h
        · exact Or.inr (List.mem_cons_of_mem y h)
      · rintro (h | h)
        · exact Or.inl h
        · rcases List.mem_cons.mp h with rfl | h'
          · exact Or.inl hy
          · exact Or.inr h'
    · rw [if_neg hc, ih (acc ++ [y]) x]
      simp only [List.mem_append, List.mem_singleton, List.mem_cons]
      tauto

theorem dedupAppend_nodup : ∀ (xs acc : List Str), acc.Nodup → (dedupAppend acc xs).Nodup := by
  intro xs
  induction xs with
  | nil =>
    intro acc h
    simpa [dedupAppend] using h
  | cons y ys ih =>
    intro acc h
    simp only [dedupAppend]
    by_cases hc : List.contains acc y = true
    · rw [if_pos hc]
      exact ih acc h
    · rw [if_neg hc]
      apply ih
      rw [List.nodup_append]
      refine ⟨h, List.nodup_singleton y, ?_⟩
      intro a ha hay
      rcases List.mem_singleton.mp hay with rfl
      exact hc ((containsStr_mem acc a).mpr ha)

theorem take_getLastD {α : Type} (l : List α) (d : α) (n : Nat) (h0 : 0 < n)
    (hn : n ≤ l.length) : (l.take n).getLastD d = l.getD (n - 1) d := by
  rw [List.getLastD_eq_getLast?, List.getLast?_eq_getElem?, List.getD_eq_getElem?_getD,
    List.length_take, min_eq_left hn, List.getElem?_take, if_pos (by omega)]

/-! ## Claims (listing). -/

/-- Claim C5 (confirmed): with a non-empty delimiter and no truncation,
`listObjects` lists individually exactly the surviving walked keys whose
remainder after the prefix has no delimiter occurrence (in walk order), and
the common prefixes are exactly — deduplicated, membership-wise — the
rollups (prefix plus remainder through the first delimiter occurrence) of
the surviving keys whose remainder does contain the delimiter.  Survival
means: not a metadata sidecar name, starts with the prefix when the prefix
is non-empty, and lexicographically greater than the marker when the marker
is non-empty. -/
theorem C5_delimiter_rollup (fs : FS) (bucket pfx delim marker : Str)
    (hb : bucketExists fs bucket = true) (hd : delim ≠ []) :
    listObjects fs bucket pfx delim marker 0 =
      Except.ok
        ⟨((walkFiles fs [bucket]).filter (fun p =>
            listSurvives pfx marker (keyOfPath p) &&
              (listRollup pfx delim (keyOfPath p)).isNone)).map (fun p => listEntryOf fs p),
         dedupAppend [] ((walkFiles fs [bucket]).filterMap (fun p =>
            if listSurvives pfx marker (keyOfPath p) = true then
              listRollup pfx delim (keyOfPath p) else none)),
         false, []⟩ ∧
    (∀ cp, cp ∈ dedupAppend [] ((walkFiles fs [bucket]).filterMap (fun p =>
        if listSurvives pfx marker (keyOfPath p) = true then
          listRollup pfx delim (keyOfPath p) else none)) ↔
      ∃ p ∈ walkFiles fs [bucket], listSurvives pfx marker (keyOfPath p) = true ∧
        listRollup pfx delim (keyOfPath p) = some cp) ∧
    (dedupAppend [] ((walkFiles fs [bucket]).filterMap (fun p =>
        if listSurvives pfx marker (keyOfPath p) = true then
          listRollup pfx delim (keyOfPath p) else none))).Nodup := by
  have hfold := listStep_foldl fs pfx delim marker hd (walkFiles fs [bucket]) [] []
  refine ⟨?_, ?_, ?_⟩
  · simp only [listObjects, listObjectsPre]
    rw [if_neg (not_not_intro hb), hfold]
    rw [if_neg (show ¬((0 : Int) > 0 ∧ _) from fun h => absurd h.1 (by decide))]
    simp only [List.nil_append]
  · intro cp
    rw [dedupAppend_mem]
    simp only [List.not_mem_nil, false_or]
    rw [List.mem_filterMap]
    constructor
    · rintro ⟨p, hp, hf⟩
      by_cases hsp : listSurvives pfx marker (keyOfPath p) = true
      · rw [if_pos hsp] at hf
        exact ⟨p, hp, hsp, hf⟩
      · rw [if_neg hsp] at hf
        cases hf
    · rintro ⟨p, hp, hsp, hro⟩
      refine ⟨p, hp, ?_⟩
      rw [if_pos hsp]
      exact hro
  · exact dedupAppend_nodup _ [] List.nodup_nil

/-- Witness for C5: over objects `{a/x, a/y, top}` with empty prefix and
delimiter `/`, the contents are `{top}` and the common prefixes `{a/}`;
over `{a/x, a/y, b/z}` with prefix `a/` and no delimiter, the contents are
exactly `{a/x, a/y}` with no common prefixes. -/
theorem C5_delimiter_rollup_witness :
    (listObjects
        ⟨[(["b".data, "a".data, "x".data], ⟨[65], 1⟩),
          (["b".data, "a".data, "y".data], ⟨[66], 2⟩),
          (["b".data, "top".data], ⟨[84], 3⟩)],
         [["b".data], ["b".data, "a".data]]⟩ "b".data [] "/".data [] 0 =
      Except.ok
        ⟨((walkFiles
            ⟨[(["b".data, "a".data, "x".data], ⟨[65], 1⟩),
              (["b".data, "a".data, "y".data], ⟨[66], 2⟩),
              (["b".data, "top".data], ⟨[84], 3⟩)],
             [["b".data], ["b".data, "a".data]]⟩ ["b".data]).filter (fun p =>
            listSurvives [] [] (keyOfPath p) &&
              (listRollup [] "/".data (keyOfPath p)).isNone)).map (fun p => listEntryOf
                ⟨[(["b".data, "a".data, "x".data], ⟨[65], 1⟩),
                  (["b".data, "a".data, "y".data], ⟨[66], 2⟩),
                  (["b".data, "top".data], ⟨[84], 3⟩)],
                 [["b".data], ["b".data, "a".data]]⟩ p),
         dedupAppend [] ((walkFiles
            ⟨[(["b".data, "a".data, "x".data], ⟨[65], 1⟩),
              (["b".data, "a".data, "y".data], ⟨[66], 2⟩),
              (["b".data, "top".data], ⟨[84], 3⟩)],
             [["b".data], ["b".data, "a".data]]⟩ ["b".data]).filterMap (fun p =>
            if listSurvives [] [] (keyOfPath p) = true then
              listRollup [] "/".data (keyOfPath p) else none)),
         false, []⟩ ∧
      (∀ cp, cp ∈ dedupAppend [] ((walkFiles
          ⟨[(["b".data, "a".data, "x".data], ⟨[65], 1⟩),
            (["b".data, "a".data, "y".data], ⟨[66], 2⟩),
            (["b".data, "top".data], ⟨[84], 3⟩)],
           [["b".data], ["b".data, "a".data]]⟩ ["b".data]).filterMap (fun p =>
          if listSurvives [] [] (keyOfPath p) = true then
            listRollup [] "/".data (keyOfPath p) else none)) ↔
        ∃ p ∈ walkFiles
            ⟨[(["b".data, "a".data, "x".data], ⟨[65], 1⟩),
              (["b".data, "a".data, "y".data], ⟨[66], 2⟩),
              (["b".data, "top".data], ⟨[84], 3⟩)],
             [["b".data], ["b".data, "a".data]]⟩ ["b".data],
          listSurvives [] [] (keyOfPath p) = true ∧
            listRollup [] "/".data (keyOfPath p) = some cp) ∧
      (dedupAppend [] ((walkFiles
          ⟨[(["b".data, "a".data, "x".data], ⟨[65], 1⟩),
            (["b".data, "a".data, "y".data], ⟨[66], 2⟩),
            (["b".data, "top".data], ⟨[84], 3⟩)],
           [["b".data], ["b".data, "a".data]]⟩ ["b".data]).filterMap (fun p =>
          if listSurvives [] [] (keyOfPath p) = true then
            listRollup [] "/".data (keyOfPath p) else none))).Nodup) ∧
    (listObjects
        ⟨[(["b".data, "a".data, "x".data], ⟨[65], 1⟩),
          (["b".data, "a".data, "y".data], ⟨[66], 2⟩),
          (["b".data, "top".data], ⟨[84], 3⟩)],
         [["b".data], ["b".data, "a".data]]⟩ "b".data [] "/".data [] 0).map
      (fun res => (res.objects.map (fun o => o.key), res.commonPfxs, res.isTruncated)) =
      Except.ok (["top".data], ["a/".data], false) ∧
    (listObjects
        ⟨[(["b".data, "a".data, "x".data], ⟨[65], 1⟩),
          (["b".data, "a".data, "y".data], ⟨[66], 2⟩),
          (["b".data, "bee".data, "z".data], ⟨[67], 3⟩)],
         [["b".data], ["b".data, "a".data], ["b".data, "bee".data]]⟩ "b".data
        "a/".data [] [] 0).map
      (fun res => (res.objects.map (fun o => o.key), res.commonPfxs)) =
      Except.ok (["a/x".data, "a/y".data], []) :=
  ⟨C5_delimiter_rollup
      ⟨[(["b".data, "a".data, "x".data], ⟨[65], 1⟩),
        (["b".data, "a".data, "y".data], ⟨[66], 2⟩),
        (["b".data, "top".data], ⟨[84], 3⟩)],
       [["b".data], ["b".data, "a".data]]⟩ "b".data [] "/".data [] (by decide) (by decide),
   by decide, by decide⟩

/-- Claim C6 (confirmed): with `maxKeys > 0`, when more than `maxKeys`
entries survive the filters `listObjects` returns exactly the first
`maxKeys` of them, sets `isTruncated`, and reports as `nextMarker` the key
of the last entry actually returned; otherwise it returns all surviving
entries with `isTruncated = false` and an empty `nextMarker`. -/
theorem C6_maxkeys_truncation (fs : FS) (bucket pfx delim marker : Str) (maxKeys : Int)
    (hb : bucketExists fs bucket = true) (hpos : 0 < maxKeys) :
    (((listObjectsPre fs bucket pfx delim marker).1.length : Int) > maxKeys →
      listObjects fs bucket pfx delim marker maxKeys = Except.ok
        ⟨(listObjectsPre fs bucket pfx delim marker).1.take maxKeys.toNat,
         (listObjectsPre fs bucket pfx delim marker).2, true,
         (((listObjectsPre fs bucket pfx delim marker).1.take maxKeys.toNat).getLastD
            defaultObjectInfo).key⟩ ∧
      ((listObjectsPre fs bucket pfx delim marker).1.take maxKeys.toNat).length =
        maxKeys.toNat) ∧
    (¬ ((listObjectsPre fs bucket pfx delim marker).1.length : Int) > maxKeys →
      listObjects fs bucket pfx delim marker maxKeys = Except.ok
        ⟨(listObjectsPre fs bucket pfx delim marker).1,
         (listObjectsPre fs bucket pfx delim marker).2, false, []⟩) := by
  constructor
  · intro hgt
    have hlen : maxKeys.toNat ≤ (listObjectsPre fs bucket pfx delim marker).1.length := by
      omega
    have h0 : 0 < maxKeys.toNat := by omega
    constructor
    · simp only [listObjects]
      rw [if_neg (not_not_intro hb), if_pos ⟨hpos, hgt⟩,
        take_getLastD _ defaultObjectInfo maxKeys.toNat h0 hlen]
    · rw [List.length_take]
      exact min_eq_left hlen
  · intro hle
    simp only [listObjects]
    rw [if_neg (not_not_intro hb), if_neg (show ¬(maxKeys > 0 ∧ _) from fun h => hle h.2)]

/-- Witness for C6: `maxKeys = 1` over three surviving objects returns
exactly one object (`x`), `isTruncated = true`, and `nextMarker = "x"`, the
one returned key. -/
theorem C6_maxkeys_truncation_witness :
    (((listObjectsPre
        ⟨[(["b".data, "x".data], ⟨[65], 1⟩), (["b".data, "y".data], ⟨[66], 2⟩),
          (["b".data, "z".data], ⟨[67], 3⟩)], [["b".data]]⟩
        "b".data [] [] []).1.length : Int) > 1 →
      listObjects
        ⟨[(["b".data, "x".data], ⟨[65], 1⟩), (["b".data, "y".data], ⟨[66], 2⟩),
          (["b".data, "z".data], ⟨[67], 3⟩)], [["b".data]]⟩
        "b".data [] [] [] 1 = Except.ok
        ⟨(listObjectsPre
            ⟨[(["b".data, "x".data], ⟨[65], 1⟩), (["b".data, "y".data], ⟨[66], 2⟩),
              (["b".data, "z".data], ⟨[67], 3⟩)], [["b".data]]⟩
            "b".data [] [] []).1.take (1 : Int).toNat,
         (listObjectsPre
            ⟨[(["b".data, "x".data], ⟨[65], 1⟩), (["b".data, "y".data], ⟨[66], 2⟩),
              (["b".data, "z".data], ⟨[67], 3⟩)], [["b".data]]⟩
            "b".data [] [] []).2, true,
         (((listObjectsPre
            ⟨[(["b".data, "x".data], ⟨[65], 1⟩), (["b".data, "y".data], ⟨[66], 2⟩),
              (["b".data, "z".data], ⟨[67], 3⟩)], [["b".data]]⟩
            "b".data [] [] []).1.take (1 : Int).toNat).getLastD
            defaultObjectInfo).key⟩ ∧
      ((listObjectsPre
          ⟨[(["b".data, "x".data], ⟨[65], 1⟩), (["b".data, "y".data], ⟨[66], 2⟩),
            (["b".data, "z".data], ⟨[67], 3⟩)], [["b".data]]⟩
          "b".data [] [] []).1.take (1 : Int).toNat).length = (1 : Int).toNat) ∧
    (¬ ((listObjectsPre
        ⟨[(["b".data, "x".data], ⟨[65], 1⟩), (["b".data, "y".data], ⟨[66], 2⟩),
          (["b".data, "z".data], ⟨[67], 3⟩)], [["b".data]]⟩
        "b".data [] [] []).1.length : Int) > 1 →
      listObjects
        ⟨[(["b".data, "x".data], ⟨[65], 1⟩), (["b".data, "y".data], ⟨[66], 2⟩),
          (["b".data, "z".data], ⟨[67], 3⟩)], [["b".data]]⟩
        "b".data [] [] [] 1 = Except.ok
        ⟨(listObjectsPre
            ⟨[(["b".data, "x".data], ⟨[65], 1⟩), (["b".data, "y".data], ⟨[66], 2⟩),
              (["b".data, "z".data], ⟨[67], 3⟩)], [["b".data]]⟩
            "b".data [] [] []).1,
         (listObjectsPre
            ⟨[(["b".data, "x".data], ⟨[65], 1⟩), (["b".data, "y".data], ⟨[66], 2⟩),
              (["b".data, "z".data], ⟨[67], 3⟩)], [["b".data]]⟩
            "b".data [] [] []).2, false, []⟩) ∧
    (listObjects
        ⟨[(["b".data, "x".data], ⟨[65], 1⟩), (["b".data, "y".data], ⟨[66], 2⟩),
          (["b".data, "z".data], ⟨[67], 3⟩)], [["b".data]]⟩
        "b".data [] [] [] 1).map
      (fun res => (res.objects.map (fun o => o.key), res.isTruncated, res.nextMarker)) =
      Except.ok (["x".data], true, "x".data) :=
  ⟨(C6_maxkeys_truncation
      ⟨[(["b".data, "x".data], ⟨[65], 1⟩), (["b".data, "y".data], ⟨[66], 2⟩),
        (["b".data, "z".data], ⟨[67], 3⟩)], [["b".data]]⟩
      "b".data [] [] [] 1 (by decide) (by decide)).1,
   (C6_maxkeys_truncation
      ⟨[(["b".data, "x".data], ⟨[65], 1⟩), (["b".data, "y".data], ⟨[66], 2⟩),
        (["b".data, "z".data], ⟨[67], 3⟩)], [["b".data]]⟩
      "b".data [] [] [] 1 (by decide) (by decide)).2,
   by decide⟩

end LocalS3
